import Mathlib

/-!
Verification of the kin-openapi request/response decoding core
(`openapi3filter/req_resp_decoder.go`) via a shallow embedding in Lean.

Modelling conventions:
* Go `interface{}` values are `Option Val`; a Go nil interface is `none`.
  A Go interface holding a nil slice or nil map is NOT a nil interface, so
  `Val.arr none` / `Val.obj none` model interfaces wrapping nil slices/maps.
* Go maps are association lists (`alookup` is map access, `mapSet` insertion,
  `mapDel` deletion).  Iteration order of Go maps is unspecified; the list
  order stands in for it, and theorems avoid order-dependent observations.
* Go errors are `GoErr`: either a `*ParseError` (`GoErr.parse`) or any other
  error rendered by its message (`GoErr.str`, covering `fmt.Errorf` /
  `errors.New` / `strconv` errors).
* `float64` values are represented by their source lexeme (`Val.num`); no
  claim observes floating-point arithmetic.
* Strings are treated as sequences of characters; the decoded surfaces in all
  claims are ASCII, where Go's byte-based indexing coincides.
-/

/-! ## Generic map (Go `map[string]T`) helpers -/

def alookup {α : Type} (l : List (String × α)) (k : String) : Option α :=
  (l.find? (fun e => e.1 == k)).map (·.2)

def mapSet {α : Type} (l : List (String × α)) (k : String) (v : α) : List (String × α) :=
  if (alookup l k).isSome then
    l.map (fun e => if e.1 == k then (k, v) else e)
  else
    l ++ [(k, v)]

def mapDel {α : Type} (l : List (String × α)) (k : String) : List (String × α) :=
  l.filter (fun e => e.1 != k)

/-! ## Go `strings` package helpers -/

/-- Fuelled worker for `splitChars` (fuel makes the recursion structural, so
concrete applications reduce definitionally). -/
def splitCharsF (sep : List Char) : Nat → List Char → List (List Char)
  | 0, _ => []
  | _ + 1, [] => [[]]
  | fuel + 1, c :: cs =>
    if sep.isPrefixOf (c :: cs) ∧ sep ≠ [] then
      [] :: splitCharsF sep fuel (cs.drop (sep.length - 1))
    else
      match splitCharsF sep fuel cs with
      | g :: gs => (c :: g) :: gs
      | [] => [[c]]

theorem splitCharsF_fuel_irrel (sep : List Char) :
    ∀ (f g : Nat) (cs : List Char), cs.length < f → cs.length < g →
      splitCharsF sep f cs = splitCharsF sep g cs := by
  intro f
  induction f with
  | zero => intro g cs hf; omega
  | succ f ih =>
    intro g cs hf hg
    match g, cs with
    | 0, _ => omega
    | g + 1, [] => rfl
    | g + 1, c :: cs =>
      simp only [splitCharsF]
      by_cases hp : sep.isPrefixOf (c :: cs) ∧ sep ≠ []
      · simp only [if_pos hp]
        have hd : (cs.drop (sep.length - 1)).length ≤ cs.length := by
          simp [List.length_drop]
        have := ih g (cs.drop (sep.length - 1)) (by simp_all [List.length_cons]; omega)
          (by simp_all [List.length_cons]; omega)
        rw [this]
      · simp only [if_neg hp]
        have := ih g cs (by simp_all [List.length_cons]) (by simp_all [List.length_cons])
        rw [this]

/-- Models `strings.Split(s, sep)` for a non-empty separator, on char lists:
non-overlapping left-to-right matches of `sep` cut the string. -/
def splitChars (sep : List Char) (cs : List Char) : List (List Char) :=
  splitCharsF sep (cs.length + 1) cs

theorem splitChars_nil (sep : List Char) : splitChars sep [] = [[]] := rfl

theorem splitChars_cons (sep : List Char) (c : Char) (cs : List Char) :
    splitChars sep (c :: cs) =
      (if sep.isPrefixOf (c :: cs) ∧ sep ≠ [] then
        [] :: splitChars sep (cs.drop (sep.length - 1))
      else
        match splitChars sep cs with
        | g :: gs => (c :: g) :: gs
        | [] => [[c]]) := by
  show splitCharsF sep (cs.length + 1 + 1) (c :: cs) = _
  simp only [splitCharsF]
  by_cases hp : sep.isPrefixOf (c :: cs) ∧ sep ≠ []
  · simp only [if_pos hp]
    rw [splitCharsF_fuel_irrel sep (cs.length + 1) ((cs.drop (sep.length - 1)).length + 1)
      (cs.drop (sep.length - 1)) (by simp [List.length_drop]; omega) (by omega)]
    rfl
  · simp only [if_neg hp]
    rfl

/-- Models `strings.Split`.  Go's empty separator splits into characters
(and yields an empty slice on the empty string). -/
def goSplit (s : String) (sep : String) : List String :=
  if sep = "" then s.data.map (fun c => String.mk [c])
  else (splitChars sep.data s.data).map String.mk

/-- Models `strings.HasPrefix`. -/
def goHasPre (s pre : String) : Bool :=
  pre.data.isPrefixOf s.data

/-- Models Go's `%q` verb for the strings occurring in this development
(none of them contain characters that `%q` escapes). -/
def goQuote (s : String) : String :=
  "\"" ++ s ++ "\""

/-- Models `http.CanonicalHeaderKey`: the first letter and any letter
following a hyphen is upper-cased, every other letter lower-cased.
(Go leaves invalid header strings untouched; the claims use valid keys.) -/
def canonicalHeaderKey (s : String) : String :=
  String.mk ((s.data.foldl
    (fun (acc : List Char × Bool) c =>
      let c' := if acc.2 then c.toUpper else c.toLower
      (c' :: acc.1, c = '-'))
    ([], true)).1.reverse)

/-! ## Go `strconv` models -/

def digitVal (c : Char) : Option Nat :=
  if '0' ≤ c ∧ c ≤ '9' then some (c.toNat - '0'.toNat)
  else if 'a' ≤ c ∧ c ≤ 'z' then some (c.toNat - 'a'.toNat + 10)
  else if 'A' ≤ c ∧ c ≤ 'Z' then some (c.toNat - 'A'.toNat + 10)
  else none

def goParseDigits (base : Nat) (ds : List Char) : Option Nat :=
  if ds = [] then none
  else
    ds.foldl
      (fun acc c => acc.bind fun n =>
        (digitVal c).bind fun d => if d < base then some (n * base + d) else none)
      (some 0)

/-- Magnitude parser for `strconv.ParseInt(s, 0, _)` after sign removal:
base prefixes `0x`/`0o`/`0b` and the legacy leading-`0` octal form.
(Digit-separating underscores are not modelled; no claim uses them.) -/
def goParseUintBase0 : List Char → Option Nat
  | [] => none
  | '0' :: c1 :: rest =>
    if (c1 = 'x' ∨ c1 = 'X') ∧ rest ≠ [] then goParseDigits 16 rest
    else if (c1 = 'o' ∨ c1 = 'O') ∧ rest ≠ [] then goParseDigits 8 rest
    else if (c1 = 'b' ∨ c1 = 'B') ∧ rest ≠ [] then goParseDigits 2 rest
    else goParseDigits 8 (c1 :: rest)
  | ['0'] => some 0
  | cs => goParseDigits 10 cs

/-- Models `strconv.ParseInt(raw, 0, bits)`.  The error strings are the
messages of `strconv.ErrSyntax` / `strconv.ErrRange` (the code stores
`err.(*strconv.NumError).Err` as the cause). -/
def goParseInt (raw : String) (bits : Nat) : Except String Int :=
  let core : Option Int :=
    match raw.data with
    | '+' :: cs => (goParseUintBase0 cs).map (fun n => (n : Int))
    | '-' :: cs => (goParseUintBase0 cs).map (fun n => -(n : Int))
    | cs => (goParseUintBase0 cs).map (fun n => (n : Int))
  match core with
  | none => .error "invalid syntax"
  | some v =>
    if v < -((2 : Int) ^ (bits - 1)) ∨ (2 : Int) ^ (bits - 1) ≤ v then
      .error "value out of range"
    else .ok v

/-- Models `strconv.Atoi` (decimal only; the full `NumError` message is what
callers of `convertArrayParameterToType` propagate). -/
def goAtoi (raw : String) : Except String Int :=
  let sgn : Option (Bool × List Char) :=
    match raw.data with
    | '+' :: cs => some (false, cs)
    | '-' :: cs => some (true, cs)
    | cs => some (false, cs)
  match sgn with
  | some (neg, cs) =>
    match goParseDigits 10 cs with
    | none => .error ("strconv.Atoi: parsing " ++ goQuote raw ++ ": invalid syntax")
    | some n =>
      let v : Int := if neg then -(n : Int) else (n : Int)
      if v < -((2 : Int) ^ 63) ∨ (2 : Int) ^ 63 ≤ v then
        .error ("strconv.Atoi: parsing " ++ goQuote raw ++ ": value out of range")
      else .ok v
  | none => .error ("strconv.Atoi: parsing " ++ goQuote raw ++ ": invalid syntax")

/-- Models `strconv.ParseBool`: exactly these thirteen strings are accepted. -/
def goParseBool (raw : String) : Except String Bool :=
  if raw = "1" ∨ raw = "t" ∨ raw = "T" ∨ raw = "TRUE" ∨ raw = "true" ∨ raw = "True" then
    .ok true
  else if raw = "0" ∨ raw = "f" ∨ raw = "F" ∨ raw = "FALSE" ∨ raw = "false" ∨ raw = "False" then
    .ok false
  else .error "invalid syntax"

def isDigitChar (c : Char) : Bool :=
  '0' ≤ c ∧ c ≤ '9'

/-- Syntactic validity of a decimal float lexeme: `D+[.D*]`, `.D+`, optional
`e`/`E` exponent with optional sign and mandatory digits. -/
def validFloatBody (cs : List Char) : Bool :=
  let mantExp : List Char × List Char :=
    match cs.splitOnP (fun c => c = 'e' ∨ c = 'E') with
    | [m] => (m, ['0'])
    | [m, e] => (m, (match e with | '+' :: r => r | '-' :: r => r | r => r))
    | _ => ([], [])
  let mant := mantExp.1
  let ex := mantExp.2
  let mantOk : Bool :=
    match mant.splitOnP (fun c => c = '.') with
    | [w] => w ≠ [] ∧ w.all isDigitChar
    | [w, f] => (w ≠ [] ∨ f ≠ []) ∧ w.all isDigitChar ∧ f.all isDigitChar
    | _ => false
  mantOk ∧ ex ≠ [] ∧ ex.all isDigitChar

/-- Models the acceptance set of `strconv.ParseFloat(raw, 64)` (decimal and
inf/nan forms; hex floats, underscores and the `ErrRange` overflow case are
not modelled, no claim exercises them).  The parsed value itself is kept as
the lexeme, see `Val.num`. -/
def goParseFloatOk (raw : String) : Bool :=
  let body : List Char :=
    match raw.data with
    | '+' :: cs => cs
    | '-' :: cs => cs
    | cs => cs
  let low := String.mk (body.map Char.toLower)
  raw ≠ "" ∧ (low = "inf" ∨ low = "infinity" ∨ low = "nan" ∨ validFloatBody body)

/-! ## Error model (`ParseError` and plain Go errors) -/

inductive ParseErrorKind where
  | other
  | unsupportedFormat
  | invalidFormat
  deriving DecidableEq, Repr

/-- Elements of a `ParseError`'s `path` (`[]interface{}` holding strings and
ints in the Go code). -/
inductive PathSeg where
  | str (s : String)
  | idx (n : Nat)
  deriving DecidableEq, Repr

def PathSeg.render : PathSeg → String
  | .str s => s
  | .idx n => toString n

mutual
inductive ParseErr where
  | mk (kind : ParseErrorKind) (value : Option String) (reason : String)
       (cause : Option GoErr) (path : List PathSeg)

inductive GoErr where
  | parse (e : ParseErr)
  | str (s : String)
end

def ParseErr.kind : ParseErr → ParseErrorKind
  | .mk k _ _ _ _ => k

def ParseErr.value : ParseErr → Option String
  | .mk _ v _ _ _ => v

def ParseErr.reason : ParseErr → String
  | .mk _ _ r _ _ => r

def ParseErr.cause : ParseErr → Option GoErr
  | .mk _ _ _ c _ => c

def ParseErr.pathField : ParseErr → List PathSeg
  | .mk _ _ _ _ p => p

mutual
/-- Models `ParseError.Path`: the cause's path trail first, then this
error's own `path` field. -/
def ParseErr.Path : ParseErr → List PathSeg
  | .mk _ _ _ (some c) path => GoErr.pathOf c ++ path
  | .mk _ _ _ none path => path
termination_by structural e => e

def GoErr.pathOf : GoErr → List PathSeg
  | .parse e => ParseErr.Path e
  | .str _ => []
termination_by structural e => e
end

mutual
/-- Models `ParseError.innerError`: joins the `value …`, reason, and cause
messages with `": "`; a `*ParseError` cause contributes its own
`innerError` (so nested paths are not re-rendered). -/
def ParseErr.innerError : ParseErr → String
  | .mk _ value reason cause _ =>
    String.intercalate ": "
      ((match value with | some v => ["value " ++ v] | none => [])
        ++ (if reason = "" then [] else [reason])
        ++ (match cause with | some c => [GoErr.innerOf c] | none => []))
termination_by structural e => e

def GoErr.innerOf : GoErr → String
  | .parse e => ParseErr.innerError e
  | .str s => s
termination_by structural e => e
end

/-- Models `ParseError.Error`: `path p0.p1.…: ` (when the trail is non-empty)
followed by the inner reason chain. -/
def ParseErr.error (e : ParseErr) : String :=
  if 0 < e.Path.length then
    "path " ++ String.intercalate "." (e.Path.map PathSeg.render) ++ ": " ++ e.innerError
  else e.innerError

/-- Message of a Go error value (`err.Error()`). -/
def GoErr.message : GoErr → String
  | .parse e => e.error
  | .str s => s

/-! ## Decoded values (`interface{}` results of the decoders) -/

inductive Val where
  | str (s : String)
  | int64 (n : Int)
  | int32 (n : Int)
  | num (lexeme : String)
  | bool (b : Bool)
  | arr (xs : Option (List Val))
  | obj (m : Option (List (String × Option Val)))

/-! ## Schema model (the attributes of `openapi3.Schema` the decoder reads) -/

inductive Schema where
  | mk (type_ : Option (List String)) (format : String)
       (allOf : List Schema) (anyOf : List Schema) (oneOf : List Schema)
       (not_ : Option Schema) (pattern : String)
       (properties : List (String × Schema))
       (items : Option Schema)
       (addPropsHas : Option Bool) (addPropsSchema : Option Schema)

def Schema.type_ : Schema → Option (List String)
  | .mk t _ _ _ _ _ _ _ _ _ _ => t

def Schema.format : Schema → String
  | .mk _ f _ _ _ _ _ _ _ _ _ => f

def Schema.allOf : Schema → List Schema
  | .mk _ _ a _ _ _ _ _ _ _ _ => a

def Schema.anyOf : Schema → List Schema
  | .mk _ _ _ a _ _ _ _ _ _ _ => a

def Schema.oneOf : Schema → List Schema
  | .mk _ _ _ _ o _ _ _ _ _ _ => o

def Schema.not_ : Schema → Option Schema
  | .mk _ _ _ _ _ n _ _ _ _ _ => n

def Schema.pattern : Schema → String
  | .mk _ _ _ _ _ _ p _ _ _ _ => p

def Schema.properties : Schema → List (String × Schema)
  | .mk _ _ _ _ _ _ _ p _ _ _ => p

def Schema.items : Schema → Option Schema
  | .mk _ _ _ _ _ _ _ _ i _ _ => i

def Schema.addPropsHas : Schema → Option Bool
  | .mk _ _ _ _ _ _ _ _ _ h _ => h

def Schema.addPropsSchema : Schema → Option Schema
  | .mk _ _ _ _ _ _ _ _ _ _ s => s

def emptySchema : Schema :=
  .mk none "" [] [] [] none "" [] none none none

/-- The Go code dereferences `schema.Value.Items` without a nil check (a
document with an array schema and no `items` would crash); the model reads
an empty schema there, and claims about arrays assume `items` is present. -/
def Schema.itemsD (s : Schema) : Schema :=
  s.items.getD emptySchema

/-- Models `openapi3.Types.Is`: the type set is exactly this one type. -/
def typesIs (t : Option (List String)) (typ : String) : Bool :=
  match t with
  | some [x] => x == typ
  | _ => false

/-- Modelled from the spec: `openapi3.Types.Permits` (the `openapi3` package
is not under `src/`) — an absent type set is untyped and permits any type,
otherwise membership. -/
def typesPermits (t : Option (List String)) (typ : String) : Bool :=
  match t with
  | none => true
  | some l => l.contains typ

/-- Models `openapi3.Types.Slice`: the underlying list (nil → empty). -/
def typesSlice (t : Option (List String)) : List String :=
  t.getD []

/-! ## Primitive parser -/

/-- Models `parsePrimitiveCase`. -/
def parsePrimitiveCase (raw : String) (schema : Schema) (typ : String) :
    Option Val × Option GoErr :=
  if typ = "integer" then
    if schema.format = "int32" then
      match goParseInt raw 32 with
      | .error msg =>
        (none, some (.parse (.mk .invalidFormat (some raw) ("an invalid " ++ typ)
          (some (.str msg)) [])))
      | .ok v => (some (.int32 v), none)
    else
      match goParseInt raw 64 with
      | .error msg =>
        (none, some (.parse (.mk .invalidFormat (some raw) ("an invalid " ++ typ)
          (some (.str msg)) [])))
      | .ok v => (some (.int64 v), none)
  else if typ = "number" then
    if goParseFloatOk raw then (some (.num raw), none)
    else
      (none, some (.parse (.mk .invalidFormat (some raw) ("an invalid " ++ typ)
        (some (.str "invalid syntax")) [])))
  else if typ = "boolean" then
    match goParseBool raw with
    | .error msg =>
      (none, some (.parse (.mk .invalidFormat (some raw) ("an invalid " ++ typ)
        (some (.str msg)) [])))
    | .ok b => (some (.bool b), none)
  else if typ = "string" then
    (some (.str raw), none)
  else
    (none, some (.parse (.mk .other (some raw) ("schema has non primitive type " ++ typ)
      none [])))

/-- The loop of `parsePrimitive`: try each type in the schema's type set,
returning on the first success, else the last attempt's result. -/
def parsePrimLoop (raw : String) (schema : Schema) :
    List String → (Option Val × Option GoErr) → Option Val × Option GoErr
  | [], acc => acc
  | t :: ts, _ =>
    match parsePrimitiveCase raw schema t with
    | (v, none) => (v, none)
    | r => parsePrimLoop raw schema ts r

/-- Models `parsePrimitive`: nil on empty input, else the type-set loop. -/
def parsePrimitive (raw : String) (schema : Schema) : Option Val × Option GoErr :=
  if raw = "" then (none, none)
  else parsePrimLoop raw schema (typesSlice schema.type_) (none, none)

/-! ## Array parsing, property splitting, object assembly -/

/-- Constant `urlDecoderDelimiter` (`"\x1F"`). -/
def usDelim : String := "\x1F"

def usChar : Char := '\x1F'

/-- Models the error wrapping in `parseArray` / `urlValuesDecoder.parseArray`:
a `*ParseError` cause is wrapped with the item index on the path, any other
error with `item %d: %w`. -/
def wrapItemErr (i : Nat) (e : GoErr) : GoErr :=
  match e with
  | .parse pe => .parse (.mk .other none "" (some (.parse pe)) [.idx i])
  | .str s => .str ("item " ++ toString i ++ ": " ++ s)

/-- The loop of `parseArray`: parse each element as a primitive; the first
error aborts with a wrapped error, the first nil element makes the whole
result the nil slice with no error. -/
def parseArrayLoop (itemSchema : Schema) : Nat → List String → Option (List Val) →
    Option (List Val) × Option GoErr
  | _, [], acc => (acc, none)
  | i, v :: vs, acc =>
    match parsePrimitive v itemSchema with
    | (_, some e) => (none, some (wrapItemErr i e))
    | (none, none) => (none, none)
    | (some item, none) => parseArrayLoop itemSchema (i + 1) vs (some (acc.getD [] ++ [item]))

/-- Models `parseArray` (the package-level one used by path/header/cookie
decoders). -/
def parseArray (raw : List String) (schemaRef : Schema) : Option (List Val) × Option GoErr :=
  parseArrayLoop schemaRef.itemsD 0 raw none

/-- Models the Go helper that validates and strips a required style marker
from the raw value of a path parameter (`cutPfx` for short). -/
def cutPfx (raw pre : String) : Except GoErr String :=
  if pre = "" then .ok raw
  else if raw.length < pre.length ∨ raw.take pre.length ≠ pre then
    .error (.parse (.mk .invalidFormat (some raw)
      ("a value must be prefixed with " ++ goQuote pre) none []))
  else .ok (raw.drop pre.length)

def propsFromStringReason (valueDelim propDelim : String) : String :=
  "a value must be a list of object\x27s properties in format \"name" ++ valueDelim
    ++ "value\" separated by " ++ propDelim

/-- Pairing loop used by `propsFromString` when the two delimiters coincide:
item `2i` is a name, item `2i+1` its value. -/
def propsPairs : List String → List (String × String) → List (String × String)
  | a :: b :: rest, acc => propsPairs rest (mapSet acc a b)
  | _, acc => acc

/-- Splitting loop used by `propsFromString` when the delimiters differ:
every fragment must split into exactly two pieces on the value delimiter. -/
def propsSplitPairs (valueDelim : String) (src propDelim : String) :
    List String → List (String × String) → Option (List (String × String)) × Option GoErr
  | [], acc => (some acc, none)
  | pair :: rest, acc =>
    match goSplit pair valueDelim with
    | [a, b] => propsSplitPairs valueDelim src propDelim rest (mapSet acc a b)
    | _ =>
      (none, some (.parse (.mk .invalidFormat (some src)
        (propsFromStringReason valueDelim propDelim) none [])))

/-- Models `propsFromString`. -/
def propsFromString (src propDelim valueDelim : String) :
    Option (List (String × String)) × Option GoErr :=
  let pairs := goSplit src propDelim
  if propDelim = valueDelim then
    if pairs.length % 2 ≠ 0 then
      (none, some (.parse (.mk .invalidFormat (some src)
        (propsFromStringReason valueDelim propDelim) none [])))
    else (some (propsPairs pairs []), none)
  else propsSplitPairs valueDelim src propDelim pairs []

/-- Models `deepGet`: walk the keys; a missing key fails, a non-map value is
returned early (remaining keys ignored), exhausted keys return the map. -/
def deepGet : Option (List (String × Option Val)) → List String → Option (Option Val)
  | m, [] => some (some (.obj m))
  | m, k :: ks =>
    match alookup (m.getD []) k with
    | none => none
    | some val =>
      match val with
      | some (.obj m') => deepGet m' ks
      | v => some v

/-- Models `deepSet`: create intermediate maps along the keys and assign at
the last key.  (Go type-asserts an existing intermediate value to a map and
panics otherwise; the model installs a fresh map there — claims do not
exercise that panic.) -/
def deepSet (m : List (String × Option Val)) :
    List String → Option Val → List (String × Option Val)
  | [], _ => m
  | [k], value => mapSet m k value
  | k :: k2 :: ks, value =>
    let sub : List (String × Option Val) :=
      match alookup m k with
      | some (some (.obj (some m'))) => m'
      | _ => []
    mapSet m k (some (.obj (some (deepSet sub (k2 :: ks) value))))

/-- Models `findNestedSchema`: walk `properties` by key, falling back to
`additionalProperties.Schema` when the key is not declared. -/
def findNestedSchema (parent : Schema) : List String → Except String Schema
  | [] => .ok parent
  | key :: rest =>
    match alookup parent.properties key with
    | some s => findNestedSchema s rest
    | none =>
      match parent.addPropsSchema with
      | none => .error ("nested schema for key " ++ goQuote key ++ " not found")
      | some aps => findNestedSchema aps rest

def pathFromKeys (kk : List String) : List PathSeg :=
  kk.map .str

/-- Models `handlePropParseError`: `*ParseError`s get the property path
prepended, other errors are wrapped with `property %q: %w`. -/
def handlePropParseError (path : List String) (e : GoErr) : GoErr :=
  match e with
  | .parse pe => .parse (.mk .other none "" (some (.parse pe)) (pathFromKeys path))
  | .str s =>
    .str ("property " ++ goQuote (String.intercalate "." path) ++ ": " ++ s)

/-- Models `convertArrayParameterToType`: convert the split raw strings to
the typed element kind, dropping empty elements; strings pass through.  The
Go function returns a possibly-nil `[]interface{}` wrapped in an interface,
hence the `Option (List Val)` inside `Val.arr` at call sites. -/
def convertArrayParameterToType (strArray : List String) (typ : Option (List String)) :
    Option (Option (List Val)) × Option GoErr :=
  if typesPermits typ "boolean" then
    let step : Option (List Val) × Option GoErr → String → Option (List Val) × Option GoErr :=
      fun acc str =>
        match acc with
        | (_, some e) => (none, some e)
        | (l, none) =>
          if str = "" then (l, none)
          else match goParseBool str with
            | .error msg =>
              (none, some (.str ("strconv.ParseBool: parsing " ++ goQuote str ++ ": " ++ msg)))
            | .ok b => (some (l.getD [] ++ [.bool b]), none)
    match strArray.foldl step (none, none) with
    | (_, some e) => (none, some e)
    | (l, none) => (some l, none)
  else if typesPermits typ "integer" then
    let step : Option (List Val) × Option GoErr → String → Option (List Val) × Option GoErr :=
      fun acc str =>
        match acc with
        | (_, some e) => (none, some e)
        | (l, none) =>
          if str = "" then (l, none)
          else match goAtoi str with
            | .error msg => (none, some (.str msg))
            | .ok n => (some (l.getD [] ++ [.int64 n]), none)
    match strArray.foldl step (none, none) with
    | (_, some e) => (none, some e)
    | (l, none) => (some l, none)
  else if typesPermits typ "number" then
    let step : Option (List Val) × Option GoErr → String → Option (List Val) × Option GoErr :=
      fun acc str =>
        match acc with
        | (_, some e) => (none, some e)
        | (l, none) =>
          if str = "" then (l, none)
          else if goParseFloatOk str then (some (l.getD [] ++ [.num str]), none)
          else
            (none, some (.str ("strconv.ParseFloat: parsing " ++ goQuote str
              ++ ": invalid syntax")))
    match strArray.foldl step (none, none) with
    | (_, some e) => (none, some e)
    | (l, none) => (some l, none)
  else if typesPermits typ "string" then
    (some (some (strArray.map .str)), none)
  else
    (none, some (.str ("unsupported parameter array type: "
      ++ String.intercalate "&" (typesSlice typ))))

/-- Go map read with zero-value default (`props[k]` is `""` when absent). -/
def propsGet (props : List (String × String)) (k : String) : String :=
  (alookup props k).getD ""

/-- First parse failure among the split elements of an array-typed property
in `makeObject` (the `for _, v := range vals` check loop). -/
def firstParseFailure (itemSchema : Schema) (vals : List String) : Option GoErr :=
  vals.findSome? (fun v => (parsePrimitive v itemSchema).2)

/-- The `case propSchema.Value.Type.Is("array")` arm of `makeObject`. -/
def makeObjectArrayProp (props : List (String × String)) (obj : List (String × Option Val))
    (propName : String) (propSchema : Schema) :
    Option (List (String × Option Val)) × Option GoErr :=
  let vals := goSplit (propsGet props propName) usDelim
  match firstParseFailure propSchema.itemsD vals with
  | some e => (none, some (handlePropParseError [propName] e))
  | none =>
    match convertArrayParameterToType vals propSchema.itemsD.type_ with
    | (_, some e) => (none, some (handlePropParseError [propName] e))
    | (ivals, none) => (some (mapSet obj propName (some (.arr (ivals.getD none)))), none)

/-- The inner `for prop := range props` loop of the
`case propSchema.Value.Type.Is("object")` arm of `makeObject`. -/
def makeObjectObjProp (schema : Schema) (props : List (String × String))
    (propName : String) : List (String × String) → List (String × Option Val) →
    Option (List (String × Option Val)) × Option GoErr
  | [], obj => (some obj, none)
  | (k, _) :: rest, obj =>
    if goHasPre k (propName ++ usDelim) then
      let mapKeys := goSplit k usDelim
      match findNestedSchema schema mapKeys with
      | .error msg =>
        (none, some (.parse (.mk .other none msg none (pathFromKeys mapKeys))))
      | .ok nested =>
        if typesPermits nested.type_ "array" then
          let vals := goSplit (propsGet props k) usDelim
          match firstParseFailure nested.itemsD vals with
          | some e => (none, some (handlePropParseError mapKeys e))
          | none =>
            match convertArrayParameterToType vals nested.itemsD.type_ with
            | (_, some e) => (none, some (handlePropParseError mapKeys e))
            | (ivals, none) =>
              makeObjectObjProp schema props propName rest
                (deepSet obj mapKeys (some (.arr (ivals.getD none))))
        else
          match parsePrimitive (propsGet props k) nested with
          | (_, some e) => (none, some (handlePropParseError mapKeys e))
          | (value, none) =>
            makeObjectObjProp schema props propName rest (deepSet obj mapKeys value)
    else makeObjectObjProp schema props propName rest obj

/-- The outer loop of `makeObject` over the schema's declared properties. -/
def makeObjectLoop (schema : Schema) (props : List (String × String)) :
    List (String × Schema) → List (String × Option Val) →
    Option (List (String × Option Val)) × Option GoErr
  | [], obj => (some obj, none)
  | (propName, propSchema) :: rest, obj =>
    if typesIs propSchema.type_ "array" then
      match makeObjectArrayProp props obj propName propSchema with
      | (_, some e) => (none, some e)
      | (some obj', none) => makeObjectLoop schema props rest obj'
      | (none, none) => makeObjectLoop schema props rest obj
    else if typesIs propSchema.type_ "object" then
      match makeObjectObjProp schema props propName props obj with
      | (_, some e) => (none, some e)
      | (some obj', none) => makeObjectLoop schema props rest obj'
      | (none, none) => makeObjectLoop schema props rest obj
    else
      match parsePrimitive (propsGet props propName) propSchema with
      | (_, some e) => (none, some (handlePropParseError [propName] e))
      | (value, none) => makeObjectLoop schema props rest (mapSet obj propName value)

/-- Models `makeObject`. -/
def makeObject (props : List (String × String)) (schema : Schema) :
    Option (List (String × Option Val)) × Option GoErr :=
  makeObjectLoop schema props schema.properties []

/-! ## Serialization methods and the invalid-method error -/

structure SerializationMethod where
  style : String
  explode : Bool
  deriving DecidableEq, Repr

def invalidSerializationMethodErr (sm : SerializationMethod) : GoErr :=
  .str ("invalid serialization method: style=" ++ goQuote sm.style ++ ", explode="
    ++ (if sm.explode then "true" else "false"))

/-! ## Path parameter decoder (`pathParamDecoder`) -/

/-- The style switch of `pathParamDecoder.DecodePrimitive`: the required
value marker, or `none` for an invalid serialization method. -/
def pathPrimPre (param : String) (sm : SerializationMethod) : Option String :=
  if sm.style = "simple" then some ""
  else if sm.style = "label" then some "."
  else if sm.style = "matrix" then some (";" ++ param ++ "=")
  else none

/-- Models `pathParamDecoder.DecodePrimitive`.  (The `d.pathParams == nil`
check in Go behaves exactly like a failed lookup, so a plain list models
both.) -/
def pathDecodePrimitive (pathParams : List (String × String)) (param : String)
    (sm : SerializationMethod) (schema : Schema) : Option Val × Bool × Option GoErr :=
  match pathPrimPre param sm with
  | none => (none, false, some (invalidSerializationMethodErr sm))
  | some pre =>
    match alookup pathParams param with
    | none => (none, false, none)
    | some raw =>
      if raw = "" then (none, false, none)
      else
        match cutPfx raw pre with
        | .error e => (none, true, some e)
        | .ok src =>
          let r := parsePrimitive src schema
          (r.1, true, r.2)

/-- The style switch of `pathParamDecoder.DecodeArray`: marker and item
delimiter, or `none` for an invalid serialization method. -/
def pathArrPre (param : String) (sm : SerializationMethod) : Option (String × String) :=
  if sm.style = "simple" then some ("", ",")
  else if sm.style = "label" ∧ sm.explode = false then some (".", ",")
  else if sm.style = "label" ∧ sm.explode = true then some (".", ".")
  else if sm.style = "matrix" ∧ sm.explode = false then some ((";" ++ param ++ "="), ",")
  else if sm.style = "matrix" ∧ sm.explode = true then
    some ((";" ++ param ++ "="), (";" ++ param ++ "="))
  else none

/-- Models `pathParamDecoder.DecodeArray`. -/
def pathDecodeArray (pathParams : List (String × String)) (param : String)
    (sm : SerializationMethod) (schema : Schema) :
    Option (List Val) × Bool × Option GoErr :=
  match pathArrPre param sm with
  | none => (none, false, some (invalidSerializationMethodErr sm))
  | some (pre, delim) =>
    match alookup pathParams param with
    | none => (none, false, none)
    | some raw =>
      if raw = "" then (none, false, none)
      else
        match cutPfx raw pre with
        | .error e => (none, true, some e)
        | .ok src =>
          let r := parseArray (goSplit src delim) schema
          (r.1, true, r.2)

/-- The style switch of `pathParamDecoder.DecodeObject`: marker, property
delimiter and key/value delimiter, or `none` for an invalid method. -/
def pathObjPre (param : String) (sm : SerializationMethod) :
    Option (String × String × String) :=
  if sm.style = "simple" ∧ sm.explode = false then some ("", ",", ",")
  else if sm.style = "simple" ∧ sm.explode = true then some ("", ",", "=")
  else if sm.style = "label" ∧ sm.explode = false then some (".", ",", ",")
  else if sm.style = "label" ∧ sm.explode = true then some (".", ".", "=")
  else if sm.style = "matrix" ∧ sm.explode = false then some ((";" ++ param ++ "="), ",", ",")
  else if sm.style = "matrix" ∧ sm.explode = true then some (";", ";", "=")
  else none

/-- Models `pathParamDecoder.DecodeObject`. -/
def pathDecodeObject (pathParams : List (String × String)) (param : String)
    (sm : SerializationMethod) (schema : Schema) :
    Option (List (String × Option Val)) × Bool × Option GoErr :=
  match pathObjPre param sm with
  | none => (none, false, some (invalidSerializationMethodErr sm))
  | some (pre, propsDelim, valueDelim) =>
    match alookup pathParams param with
    | none => (none, false, none)
    | some raw =>
      if raw = "" then (none, false, none)
      else
        match cutPfx raw pre with
        | .error e => (none, true, some e)
        | .ok src =>
          match propsFromString src propsDelim valueDelim with
          | (_, some e) => (none, true, some e)
          | (props, none) =>
            let r := makeObject (props.getD []) schema
            (r.1, true, r.2)

/-! ## Query parameter decoder (`urlValuesDecoder`) -/

/-- Models `urlValuesDecoder.DecodePrimitive`. -/
def queryDecodePrimitive (values : List (String × List String)) (param : String)
    (sm : SerializationMethod) (schema : Schema) : Option Val × Bool × Option GoErr :=
  if sm.style ≠ "form" then (none, false, some (invalidSerializationMethodErr sm))
  else
    match alookup values param with
    | none => (none, false, none)
    | some [] => (none, true, none)
    | some (v0 :: _) =>
      if schema.type_.isNone ∧ schema.pattern ≠ "" then (some (.str v0), true, none)
      else
        let r := parsePrimitive v0 schema
        (r.1, true, r.2)

/-! ### The body-side value parser (`urlValuesDecoder.parseValue`) -/

mutual
/-- Models `urlValuesDecoder.parseValue`: schema-composition-aware parsing
of a single raw string. -/
def parseValue (v : String) : Schema → Option Val × Option GoErr
  | .mk type_ format allOf anyOf oneOf not_ pattern properties items apHas apSchema =>
    match allOf with
    | s :: rest => parseAllOfAux v (s :: rest) (none, none)
    | [] =>
      match anyOf with
      | s :: rest => parseAnyOfAux v (s :: rest) none
      | [] =>
        match oneOf with
        | s :: rest =>
          let t := parseOneOfAux v (s :: rest) none 0
          if t.2 = 1 then (t.1, none)
          else
            (none, some (.str ("decoding oneOf failed: " ++ toString t.2
              ++ " schemas matched")))
        | [] =>
          match not_ with
          | some _ => (none, some (.str "not implemented: decoding 'not'"))
          | none =>
            parsePrimitive v (.mk type_ format [] [] [] none pattern properties items
              apHas apSchema)
termination_by structural s => s

/-- The `allOf` loop of `parseValue`: stops at the first nil value or error,
returning that member's result; otherwise the last member's result. -/
def parseAllOfAux (v : String) : List Schema → (Option Val × Option GoErr) →
    Option Val × Option GoErr
  | [], acc => acc
  | sr :: rest, _ =>
    match parseValue v sr with
    | (some value, none) => parseAllOfAux v rest (some value, none)
    | r => r
termination_by structural l => l

/-- The `anyOf` loop of `parseValue`: first member parsing without error
wins; otherwise the last error. -/
def parseAnyOfAux (v : String) : List Schema → Option GoErr → Option Val × Option GoErr
  | [], lastErr => (none, lastErr)
  | sr :: rest, _ =>
    match parseValue v sr with
    | (value, none) => (value, none)
    | (_, some e) => parseAnyOfAux v rest (some e)
termination_by structural l => l

/-- The `oneOf` loop of `parseValue`: counts the members parsing without
error, keeping the last such value. -/
def parseOneOfAux (v : String) : List Schema → Option Val → Nat → Option Val × Nat
  | [], value, matched => (value, matched)
  | sr :: rest, value, matched =>
    match parseValue v sr with
    | (result, none) => parseOneOfAux v rest result (matched + 1)
    | (_, some _) => parseOneOfAux v rest value matched
termination_by structural l => l
end

/-- The loop of `urlValuesDecoder.parseArray`: like `parseArrayLoop` but the
items are parsed with `parseValue`. -/
def queryParseArrayLoop (itemSchema : Schema) : Nat → List String → Option (List Val) →
    Option (List Val) × Option GoErr
  | _, [], acc => (acc, none)
  | i, v :: vs, acc =>
    match parseValue v itemSchema with
    | (_, some e) => (none, some (wrapItemErr i e))
    | (none, none) => (none, none)
    | (some item, none) => queryParseArrayLoop itemSchema (i + 1) vs (some (acc.getD [] ++ [item]))

/-- Models `urlValuesDecoder.parseArray` (`sm` is accepted but unused, as in
the Go signature). -/
def queryParseArray (raw : List String) (_sm : SerializationMethod) (schemaRef : Schema) :
    Option (List Val) × Option GoErr :=
  queryParseArrayLoop schemaRef.itemsD 0 raw none

/-- Models `urlValuesDecoder.DecodeArray`.  Only style `deepObject` is
rejected; with `explode=false` the single raw value is split by the
style-specific delimiter (an unknown style yields the empty delimiter,
which in Go splits into characters). -/
def queryDecodeArray (values : List (String × List String)) (param : String)
    (sm : SerializationMethod) (schema : Schema) :
    Option (List Val) × Bool × Option GoErr :=
  if sm.style = "deepObject" then (none, false, some (invalidSerializationMethodErr sm))
  else
    match alookup values param with
    | none => (none, false, none)
    | some [] => (none, true, none)
    | some (v0 :: vrest) =>
      let vals :=
        if sm.explode = false then
          let delim :=
            if sm.style = "form" then ","
            else if sm.style = "spaceDelimited" then " "
            else if sm.style = "pipeDelimited" then "|"
            else ""
          goSplit v0 delim
        else v0 :: vrest
      let r := queryParseArray vals sm schema
      (r.1, true, r.2)

/-! ### Query object decoding (`urlValuesDecoder.DecodeObject`) -/

/-- Scanner for the remainder of a non-greedy bracket group: the characters
up to the first `]`, plus the rest of the input after it. -/
def splitAtRB : List Char → Option (List Char × List Char)
  | [] => none
  | c :: rest =>
    if c = ']' then some ([], rest)
    else (splitAtRB rest).map (fun p => (c :: p.1, p.2))

theorem splitAtRB_length : ∀ {cs a b : List Char}, splitAtRB cs = some (a, b) →
    b.length < cs.length := by
  intro cs
  induction cs with
  | nil => intro a b h; simp [splitAtRB] at h
  | cons c rest ih =>
    intro a b h
    simp only [splitAtRB] at h
    by_cases hc : c = ']'
    · simp only [hc, if_pos rfl] at h
      cases h
      simp
    · simp only [hc, if_neg hc] at h
      cases hsr : splitAtRB rest with
      | none => rw [hsr] at h; simp [Option.map] at h
      | some p =>
        rw [hsr] at h
        simp only [Option.map, Option.map_some'] at h
        cases h
        have := ih (a := p.1) (b := p.2) (by rw [hsr])
        simp only [List.length_cons]
        omega

/-- Fuelled worker for `bracketCaptures`. -/
def bracketCapturesF : Nat → List Char → List String
  | 0, _ => []
  | _ + 1, [] => []
  | fuel + 1, c :: rest =>
    if c = '[' then
      match splitAtRB rest with
      | some (cap, rem) => String.mk cap :: bracketCapturesF fuel rem
      | none => []
    else bracketCapturesF fuel rest

theorem bracketCapturesF_fuel_irrel :
    ∀ (f g : Nat) (cs : List Char), cs.length < f → cs.length < g →
      bracketCapturesF f cs = bracketCapturesF g cs := by
  intro f
  induction f with
  | zero => intro g cs hf; omega
  | succ f ih =>
    intro g cs hf hg
    match g, cs with
    | 0, _ => omega
    | g + 1, [] => rfl
    | g + 1, c :: rest =>
      simp only [bracketCapturesF]
      by_cases hc : c = '['
      · simp only [if_pos hc]
        cases hsr : splitAtRB rest with
        | none => rfl
        | some p =>
          obtain ⟨cap, rem⟩ := p
          have hlen := splitAtRB_length (a := cap) (b := rem) (by rw [hsr])
          have := ih g rem (by simp_all [List.length_cons]; omega)
            (by simp_all [List.length_cons]; omega)
          show String.mk cap :: bracketCapturesF f rem = String.mk cap :: bracketCapturesF g rem
          rw [this]
      · simp only [if_neg hc]
        have := ih g rest (by simp_all [List.length_cons]) (by simp_all [List.length_cons])
        rw [this]

/-- Models the captures of the deepObject bracket regex (Go:
`FindAllStringSubmatch` with the non-greedy group pattern): the contents of
each `[...]` group, scanning left to right. -/
def bracketCaptures (cs : List Char) : List String :=
  bracketCapturesF (cs.length + 1) cs

theorem bracketCaptures_nil : bracketCaptures [] = [] := rfl

theorem bracketCaptures_cons (c : Char) (rest : List Char) :
    bracketCaptures (c :: rest) =
      (if c = '[' then
        match splitAtRB rest with
        | some (cap, rem) => String.mk cap :: bracketCaptures rem
        | none => []
      else bracketCaptures rest) := by
  show bracketCapturesF (rest.length + 1 + 1) (c :: rest) = _
  simp only [bracketCapturesF]
  by_cases hc : c = '['
  · simp only [if_pos hc]
    cases hsr : splitAtRB rest with
    | none => rfl
    | some p =>
      obtain ⟨cap, rem⟩ := p
      have hlen := splitAtRB_length (a := cap) (b := rem) (by rw [hsr])
      show String.mk cap :: bracketCapturesF (rest.length + 1) rem
        = String.mk cap :: bracketCaptures rem
      rw [bracketCapturesF_fuel_irrel (rest.length + 1) (rem.length + 1) rem
        (by omega) (by omega)]
      rfl
  · simp only [if_neg hc]
    rfl

/-- The `"form"` arm of the `propsFn` in `urlValuesDecoder.DecodeObject`.
(Go indexes `values[0]` in the exploded arm; `url.Values` from query parsing
never maps a key to an empty slice, the model reads `""` there.) -/
def formObjProps (values : List (String × List String)) (param : String) (explode : Bool) :
    Option (List (String × String)) × Option GoErr :=
  if values.isEmpty then (none, none)
  else if explode then
    (some (values.map (fun e => (e.1, e.2.headD ""))), none)
  else
    match alookup values param with
    | none => (none, none)
    | some [] => (none, none)
    | some (v0 :: _) => propsFromString v0 "," ","

/-- The `"deepObject"` arm of the `propsFn` in
`urlValuesDecoder.DecodeObject`. -/
def deepObjProps (values : List (String × List String)) :
    Option (List (String × String)) × Option GoErr :=
  let props := values.foldl
    (fun acc e =>
      match bracketCaptures e.1.data with
      | [] => acc
      | [m] => mapSet acc m (String.intercalate usDelim e.2)
      | ms => mapSet acc (String.intercalate usDelim ms) (String.intercalate usDelim e.2))
    []
  if props.isEmpty then (none, none) else (some props, none)

/-- The style dispatch over the two `propsFn` arms; `none` for an invalid
serialization method. -/
def queryObjProps (values : List (String × List String)) (param : String)
    (sm : SerializationMethod) : Option (Option (List (String × String)) × Option GoErr) :=
  if sm.style = "form" then some (formObjProps values param sm.explode)
  else if sm.style = "deepObject" then some (deepObjProps values)
  else none

/-- The `found` computation at the end of `urlValuesDecoder.DecodeObject`. -/
def queryObjFound (props : List (String × String)) (val : List (String × Option Val))
    (schema : Schema) : Bool :=
  schema.properties.any (fun e =>
    (alookup props e.1).isSome ||
    ((typesPermits schema.type_ "array" || typesPermits schema.type_ "object") &&
      props.any (fun kv => (deepGet (some val) (goSplit kv.1 usDelim)).isSome)))

/-- Models `urlValuesDecoder.DecodeObject`. -/
def queryDecodeObject (values : List (String × List String)) (param : String)
    (sm : SerializationMethod) (schema : Schema) :
    Option (List (String × Option Val)) × Bool × Option GoErr :=
  match queryObjProps values param sm with
  | none => (none, false, some (invalidSerializationMethodErr sm))
  | some (_, some e) => (none, false, some e)
  | some (none, none) => (none, false, none)
  | some (some props, none) =>
    match makeObject props schema with
    | (_, some e) => (none, false, some e)
    | (val, none) =>
      (val, queryObjFound props (val.getD []) schema, none)

/-! ## Header parameter decoder (`headerParamDecoder`) -/

/-- Models `headerParamDecoder.DecodePrimitive`. -/
def headerDecodePrimitive (hdr : List (String × List String)) (param : String)
    (sm : SerializationMethod) (schema : Schema) : Option Val × Bool × Option GoErr :=
  if sm.style ≠ "simple" then (none, false, some (invalidSerializationMethodErr sm))
  else
    match alookup hdr (canonicalHeaderKey param) with
    | none => (none, false, none)
    | some [] => (none, true, none)
    | some (v0 :: _) =>
      let r := parsePrimitive v0 schema
      (r.1, true, r.2)

/-- Models `headerParamDecoder.DecodeArray`. -/
def headerDecodeArray (hdr : List (String × List String)) (param : String)
    (sm : SerializationMethod) (schema : Schema) :
    Option (List Val) × Bool × Option GoErr :=
  if sm.style ≠ "simple" then (none, false, some (invalidSerializationMethodErr sm))
  else
    match alookup hdr (canonicalHeaderKey param) with
    | none => (none, false, none)
    | some [] => (none, true, none)
    | some (v0 :: _) =>
      let r := parseArray (goSplit v0 ",") schema
      (r.1, true, r.2)

/-- Models `headerParamDecoder.DecodeObject`. -/
def headerDecodeObject (hdr : List (String × List String)) (param : String)
    (sm : SerializationMethod) (schema : Schema) :
    Option (List (String × Option Val)) × Bool × Option GoErr :=
  if sm.style ≠ "simple" then (none, false, some (invalidSerializationMethodErr sm))
  else
    let valueDelim := if sm.explode then "=" else ","
    match alookup hdr (canonicalHeaderKey param) with
    | none => (none, false, none)
    | some [] => (none, true, none)
    | some (v0 :: _) =>
      match propsFromString v0 "," valueDelim with
      | (_, some e) => (none, true, some e)
      | (props, none) =>
        let r := makeObject (props.getD []) schema
        (r.1, true, r.2)

/-! ## Cookie parameter decoder (`cookieParamDecoder`) -/

/-- Models `http.Request.Cookie(name)`: the first cookie with this name, or
`http.ErrNoCookie`.  (The decoder's `err != nil` re-check after a found
cookie is unreachable and not modelled.) -/
def requestCookie (cookies : List (String × String)) (name : String) : Option String :=
  alookup cookies name

/-- Models `cookieParamDecoder.DecodePrimitive`: only the style is checked
(`explode` is not consulted for primitives). -/
def cookieDecodePrimitive (cookies : List (String × String)) (param : String)
    (sm : SerializationMethod) (schema : Schema) : Option Val × Bool × Option GoErr :=
  if sm.style ≠ "form" then (none, false, some (invalidSerializationMethodErr sm))
  else
    match requestCookie cookies param with
    | none => (none, false, none)
    | some v =>
      let r := parsePrimitive v schema
      (r.1, true, r.2)

/-- Models `cookieParamDecoder.DecodeArray`. -/
def cookieDecodeArray (cookies : List (String × String)) (param : String)
    (sm : SerializationMethod) (schema : Schema) :
    Option (List Val) × Bool × Option GoErr :=
  if sm.style ≠ "form" ∨ sm.explode then (none, false, some (invalidSerializationMethodErr sm))
  else
    match requestCookie cookies param with
    | none => (none, false, none)
    | some v =>
      let r := parseArray (goSplit v ",") schema
      (r.1, true, r.2)

/-- Models `cookieParamDecoder.DecodeObject`. -/
def cookieDecodeObject (cookies : List (String × String)) (param : String)
    (sm : SerializationMethod) (schema : Schema) :
    Option (List (String × Option Val)) × Bool × Option GoErr :=
  if sm.style ≠ "form" ∨ sm.explode then (none, false, some (invalidSerializationMethodErr sm))
  else
    match requestCookie cookies param with
    | none => (none, false, none)
    | some v =>
      match propsFromString v "," "," with
      | (_, some e) => (none, true, some e)
      | (props, none) =>
        let r := makeObject (props.getD []) schema
        (r.1, true, r.2)

/-! ## The schema-directed dispatcher (`decodeValue`) -/

/-- The four concrete value decoders with their surfaces (the dynamic type
switch at the end of `decodeValue` inspects which one it holds). -/
inductive Decoder where
  | path (pathParams : List (String × String))
  | query (values : List (String × List String))
  | header (hdr : List (String × List String))
  | cookie (cookies : List (String × String))

/-- Dispatch of the `valueDecoder.DecodePrimitive` interface method. -/
def Decoder.DecodePrimitive : Decoder → String → SerializationMethod → Schema →
    Option Val × Bool × Option GoErr
  | .path pp, param, sm, schema => pathDecodePrimitive pp param sm schema
  | .query vals, param, sm, schema => queryDecodePrimitive vals param sm schema
  | .header hdr, param, sm, schema => headerDecodePrimitive hdr param sm schema
  | .cookie cs, param, sm, schema => cookieDecodePrimitive cs param sm schema

/-- Dispatch of the `valueDecoder.DecodeArray` interface method. -/
def Decoder.DecodeArray : Decoder → String → SerializationMethod → Schema →
    Option (List Val) × Bool × Option GoErr
  | .path pp, param, sm, schema => pathDecodeArray pp param sm schema
  | .query vals, param, sm, schema => queryDecodeArray vals param sm schema
  | .header hdr, param, sm, schema => headerDecodeArray hdr param sm schema
  | .cookie cs, param, sm, schema => cookieDecodeArray cs param sm schema

/-- Dispatch of the `valueDecoder.DecodeObject` interface method. -/
def Decoder.DecodeObject : Decoder → String → SerializationMethod → Schema →
    Option (List (String × Option Val)) × Bool × Option GoErr
  | .path pp, param, sm, schema => pathDecodeObject pp param sm schema
  | .query vals, param, sm, schema => queryDecodeObject vals param sm schema
  | .header hdr, param, sm, schema => headerDecodeObject hdr param sm schema
  | .cookie cs, param, sm, schema => cookieDecodeObject cs param sm schema

/-- The type-directed `decodeFn` selection and invocation in `decodeValue`.
The Go closures convert `[]interface{}` / `map[string]interface{}` results
to `interface{}`, so array and object results are always non-nil interfaces
(`some (Val.arr _)` / `some (Val.obj _)`), even when the slice/map is nil. -/
def decodeByType (dec : Decoder) (param : String) (sm : SerializationMethod)
    (schema : Schema) : Option Val × Bool × Option GoErr :=
  if typesIs schema.type_ "array" then
    let r := dec.DecodeArray param sm schema
    (some (.arr r.1), r.2.1, r.2.2)
  else if typesIs schema.type_ "object" then
    let r := dec.DecodeObject param sm schema
    (some (.obj r.1), r.2.1, r.2.2)
  else dec.DecodePrimitive param sm schema

/-- The untyped fallback at the end of `decodeValue`: probe the surface for
the parameter name (for the query decoder, a schema with a `pattern` falls
through to primitive decoding first). -/
def decodeUntypedFallback (dec : Decoder) (param : String) (sm : SerializationMethod)
    (schema : Schema) : Option Val × Bool × Option GoErr :=
  match dec with
  | .path pp => (none, (alookup pp param).isSome, none)
  | .query vals =>
    if schema.pattern ≠ "" then dec.DecodePrimitive param sm schema
    else (none, (alookup vals param).isSome, none)
  | .header hdr => (none, (alookup hdr (canonicalHeaderKey param)).isSome, none)
  | .cookie cs => (none, (requestCookie cs param).isSome, none)

mutual
/-- Models `decodeValue`: `allOf`/`anyOf`/`oneOf` composition, the `not`
rejection, type-directed dispatch, and the untyped found-probe. -/
def decodeValue (dec : Decoder) (param : String) (sm : SerializationMethod) :
    Schema → Bool → Option Val × Bool × Option GoErr
  | .mk type_ format allOf anyOf oneOf not_ pattern properties items apHas apSchema,
    required =>
    match allOf with
    | s :: rest => decodeAllOfAux dec param sm required (s :: rest) false none none
    | [] =>
      match anyOf with
      | s :: rest => decodeAnyOfAux dec param sm required (s :: rest) false
      | [] =>
        match oneOf with
        | s :: rest =>
          let t := decodeOneOfAux dec param sm required (s :: rest) false none 0
          if 1 ≤ t.2.2 then (t.1, t.2.1, none)
          else if required then
            (none, t.2.1, some (.str ("decoding oneOf failed: " ++ goQuote param
              ++ " is required")))
          else (none, t.2.1, none)
        | [] =>
          let schema : Schema :=
            .mk type_ format [] [] [] not_ pattern properties items apHas apSchema
          match not_ with
          | some _ => (none, false, some (.str "not implemented: decoding 'not'"))
          | none =>
            match type_ with
            | some _ => decodeByType dec param sm schema
            | none => decodeUntypedFallback dec param sm schema
termination_by structural s => s

/-- The `allOf` loop of `decodeValue`: `found` is sticky; the loop breaks at
the first member with a nil value or an error, returning that member's
value and error. -/
def decodeAllOfAux (dec : Decoder) (param : String) (sm : SerializationMethod)
    (required : Bool) : List Schema → Bool → Option Val → Option GoErr →
    Option Val × Bool × Option GoErr
  | [], found, value, err => (value, found, err)
  | sr :: rest, found, _, _ =>
    let r := decodeValue dec param sm sr required
    match r with
    | (some v, f, none) => decodeAllOfAux dec param sm required rest (found || f) (some v) none
    | (v, f, e) => (v, found || f, e)
termination_by structural l => l

/-- The `anyOf` loop of `decodeValue`: the first member with a non-nil value
wins (its error, if any, is discarded); otherwise `required` decides between
an error and a silent nil. -/
def decodeAnyOfAux (dec : Decoder) (param : String) (sm : SerializationMethod)
    (required : Bool) : List Schema → Bool → Option Val × Bool × Option GoErr
  | [], found =>
    if required then
      (none, found, some (.str ("decoding anyOf for parameter " ++ goQuote param
        ++ " failed")))
    else (none, found, none)
  | sr :: rest, found =>
    let r := decodeValue dec param sm sr required
    match r.1 with
    | some v => (some v, found || r.2.1, none)
    | none => decodeAnyOfAux dec param sm required rest (found || r.2.1)
termination_by structural l => l

/-- The `oneOf` loop of `decodeValue`: count members with a non-nil value,
keeping the last such value; errors of members are discarded. -/
def decodeOneOfAux (dec : Decoder) (param : String) (sm : SerializationMethod)
    (required : Bool) : List Schema → Bool → Option Val → Nat →
    Option Val × Bool × Nat
  | [], found, value, matched => (value, found, matched)
  | sr :: rest, found, value, matched =>
    let r := decodeValue dec param sm sr required
    match r.1 with
    | some v => decodeOneOfAux dec param sm required rest (found || r.2.1) (some v) (matched + 1)
    | none => decodeOneOfAux dec param sm required rest (found || r.2.1) value matched
termination_by structural l => l
end

/-! ## Styled-parameter facade (`decodeStyledParameter`) -/

inductive ParamLocation where
  | path
  | query
  | header
  | cookie
  deriving DecidableEq, Repr

/-- The parameter attributes consumed by styled decoding. -/
structure Parameter where
  name : String
  in_ : ParamLocation
  required : Bool
  style : String
  explode : Option Bool
  schema : Schema

/-- Modelled from the spec: `openapi3.Parameter.SerializationMethod` (the
`openapi3` package is not under `src/`).  Per §4.7/§3, the style defaults by
location (path/header → `simple`, query/cookie → `form`), `explode`
defaults to true exactly for style `form`; explicit fields override. -/
def Parameter.serializationMethod (p : Parameter) : SerializationMethod :=
  let defStyle :=
    match p.in_ with
    | .path => "simple"
    | .query => "form"
    | .header => "simple"
    | .cookie => "form"
  let style := if p.style = "" then defStyle else p.style
  { style := style, explode := p.explode.getD (style = "form") }

/-- The request surface consumed by styled decoding (`PathParams`, parsed
query values, headers, cookies).  Nil and empty Go maps both have length
zero and are modelled by the empty list. -/
structure RequestValidationInput where
  pathParams : List (String × String)
  queryParams : List (String × List String)
  header : List (String × List String)
  cookies : List (String × String)

/-- Models `decodeStyledParameter`: resolve the serialization method, select
the location's decoder (path and query short-circuit on an empty surface
map), and invoke `decodeValue`. -/
def decodeStyledParameter (param : Parameter) (input : RequestValidationInput) :
    Option Val × Bool × Option GoErr :=
  let sm := param.serializationMethod
  match param.in_ with
  | .path =>
    if input.pathParams.length = 0 then (none, false, none)
    else decodeValue (.path input.pathParams) param.name sm param.schema param.required
  | .query =>
    if input.queryParams.length = 0 then (none, false, none)
    else decodeValue (.query input.queryParams) param.name sm param.schema param.required
  | .header => decodeValue (.header input.header) param.name sm param.schema param.required
  | .cookie => decodeValue (.cookie input.cookies) param.name sm param.schema param.required

/-! ## Body decoder registry and `decodeBody` -/

/-- A registered body decoder, abstracted to its observable behaviour on a
body and schema. -/
def BodyDecoder : Type := String → Schema → Option Val × Option GoErr

/-- Models the package-level `bodyDecoders` map as an explicit value
threaded through the registry operations (§9 of the spec sanctions this
"decoder set" reading of the process-wide map). -/
def BodyRegistry : Type := List (String × BodyDecoder)

/-- Models `RegisteredBodyDecoder`. -/
def RegisteredBodyDecoder (r : BodyRegistry) (contentType : String) : Option BodyDecoder :=
  alookup r contentType

/-- Models `RegisterBodyDecoder`; `none` models the panics on an empty
content type or nil decoder. -/
def RegisterBodyDecoder (r : BodyRegistry) (contentType : String)
    (decoder : Option BodyDecoder) : Option BodyRegistry :=
  if contentType = "" then none
  else
    match decoder with
    | none => none
    | some d => some (mapSet r contentType d)

/-- Models `UnregisterBodyDecoder`; `none` models the panic on an empty
content type. -/
def UnregisterBodyDecoder (r : BodyRegistry) (contentType : String) :
    Option BodyRegistry :=
  if contentType = "" then none
  else some (mapDel r contentType)

/-- Models `http.Header.Get`: first value under the canonical key, or the
empty string. -/
def headerGet (hdr : List (String × List String)) (k : String) : String :=
  match alookup hdr (canonicalHeaderKey k) with
  | some (v :: _) => v
  | _ => ""

def isSpaceChar (c : Char) : Bool :=
  c = ' ' ∨ c = '\t' ∨ c = '\n' ∨ c = '\r'

/-- Surrounding-whitespace trim on characters (ASCII whitespace; media
types in the claims are ASCII). -/
def trimChars (s : String) : String :=
  String.mk (((s.data.dropWhile isSpaceChar).reverse.dropWhile isSpaceChar).reverse)

def lowerChars (s : String) : String :=
  String.mk (s.data.map Char.toLower)

/-- Modelled from the spec: the `parseMediaType` helper (defined outside
`src/`) strips media-type parameters such as `charset=…`; per §4.6 the
dispatch uses the bare media type (lower-cased, surrounding space
trimmed). -/
def parseMediaType (contentType : String) : String :=
  lowerChars (trimChars ((goSplit contentType ";").headD ""))

def prefixUnsupportedCT : String := "unsupported content type"

/-- The effective content type of `decodeBody`: a multipart part without a
`Content-Type` header is treated as `text/plain`. -/
def effectiveContentType (hdr : List (String × List String)) (isMultipartPart : Bool) :
    String :=
  let ct := headerGet hdr "Content-Type"
  if ct = "" ∧ isMultipartPart then "text/plain" else ct

/-- Models `decodeBody`, with the registry passed explicitly. -/
def decodeBody (registry : BodyRegistry) (body : String) (isMultipartPart : Bool)
    (hdr : List (String × List String)) (schema : Schema) :
    String × Option Val × Option GoErr :=
  let mediaType := parseMediaType (effectiveContentType hdr isMultipartPart)
  match alookup registry mediaType with
  | none =>
    ("", none, some (.parse (.mk .unsupportedFormat none
      (prefixUnsupportedCT ++ " " ++ goQuote mediaType) none [])))
  | some decoder =>
    match decoder body schema with
    | (_, some e) => ("", none, some e)
    | (value, none) => (mediaType, value, none)

/-! ## Shared concrete schemas for witnesses -/

def intSchema : Schema := .mk (some ["integer"]) "" [] [] [] none "" [] none none none

def strSchema : Schema := .mk (some ["string"]) "" [] [] [] none "" [] none none none

def numSchema : Schema := .mk (some ["number"]) "" [] [] [] none "" [] none none none

def intArrSchema : Schema :=
  .mk (some ["array"]) "" [] [] [] none "" [] (some intSchema) none none

def strArrSchema : Schema :=
  .mk (some ["array"]) "" [] [] [] none "" [] (some strSchema) none none

/-! ## Shared lemmas -/

theorem alookup_mapDel {α : Type} (l : List (String × α)) (k : String) :
    alookup (mapDel l k) k = none := by
  induction l with
  | nil => rfl
  | cons e rest ih =>
    simp only [mapDel, List.filter]
    by_cases he : e.1 = k
    · simpa [he, bne] using (by simpa [mapDel] using ih)
    · have : (e.1 != k) = true := by simp [bne, he]
      rw [this]
      simp only [alookup, List.find?]
      have : (e.1 == k) = false := by simp [he]
      rw [this]
      simpa [mapDel, alookup] using ih

/-! ## C8 -/

/-- C8: for every schema, `parsePrimitive` applied to the empty string
returns the null value and no error, regardless of the schema's type set. -/
theorem c8_parsePrimitive_empty (schema : Schema) : parsePrimitive "" schema = (none, none) := by
  simp [parsePrimitive]

/-! ## C1 -/

/-- C1 counterexample: query style `spaceDelimited` with `explode=true` is
not a legal cell of the §4.3 table, the surface contains the parameter, yet
`urlValuesDecoder.DecodeArray` decodes the repeated values without the
`invalid serialization method` error; likewise cookie style `form` with
`explode=true` for a primitive is accepted by
`cookieParamDecoder.DecodePrimitive`. -/
theorem c1_counterexample :
    queryDecodeArray [("a", ["x", "y"])] "a" ⟨"spaceDelimited", true⟩ strArrSchema
      = (some [.str "x", .str "y"], true, none) ∧
    (queryDecodeArray [("a", ["x", "y"])] "a" ⟨"spaceDelimited", true⟩ strArrSchema).2.2
      ≠ some (invalidSerializationMethodErr ⟨"spaceDelimited", true⟩) ∧
    cookieDecodePrimitive [("c", "v")] "c" ⟨"form", true⟩ strSchema
      = (some (.str "v"), true, none) ∧
    (cookieDecodePrimitive [("c", "v")] "c" ⟨"form", true⟩ strSchema).2.2
      ≠ some (invalidSerializationMethodErr ⟨"form", true⟩) := by
  refine ⟨by rfl, ?_, by rfl, ?_⟩
  · show (none : Option GoErr) ≠ some _
    simp
  · show (none : Option GoErr) ≠ some _
    simp

/-- C1 amended: each decode operation rejects exactly the following
serialization methods with the `invalid serialization method` error (no
value, `found=false`): path operations reject styles outside
simple/label/matrix (any explode); query primitives reject styles other
than `form`; query arrays reject only style `deepObject` (in particular
`spaceDelimited`/`pipeDelimited` with `explode=true` are accepted); query
objects reject styles outside form/deepObject; header operations reject
styles other than `simple`; cookie primitives reject styles other than
`form` (any explode, so `form` with `explode=true` is accepted); cookie
arrays and objects reject any style other than `form` and also
`explode=true`. -/
theorem c1_amended :
    (∀ pp param sm schema, sm.style ≠ "simple" → sm.style ≠ "label" → sm.style ≠ "matrix" →
      pathDecodePrimitive pp param sm schema
        = (none, false, some (invalidSerializationMethodErr sm)))
    ∧ (∀ pp param sm schema, sm.style ≠ "simple" → sm.style ≠ "label" → sm.style ≠ "matrix" →
      pathDecodeArray pp param sm schema
        = (none, false, some (invalidSerializationMethodErr sm)))
    ∧ (∀ pp param sm schema, sm.style ≠ "simple" → sm.style ≠ "label" → sm.style ≠ "matrix" →
      pathDecodeObject pp param sm schema
        = (none, false, some (invalidSerializationMethodErr sm)))
    ∧ (∀ vals param sm schema, sm.style ≠ "form" →
      queryDecodePrimitive vals param sm schema
        = (none, false, some (invalidSerializationMethodErr sm)))
    ∧ (∀ vals param sm schema, sm.style = "deepObject" →
      queryDecodeArray vals param sm schema
        = (none, false, some (invalidSerializationMethodErr sm)))
    ∧ (∀ vals param sm schema, sm.style ≠ "form" → sm.style ≠ "deepObject" →
      queryDecodeObject vals param sm schema
        = (none, false, some (invalidSerializationMethodErr sm)))
    ∧ (∀ hdr param sm schema, sm.style ≠ "simple" →
      headerDecodePrimitive hdr param sm schema
        = (none, false, some (invalidSerializationMethodErr sm)))
    ∧ (∀ hdr param sm schema, sm.style ≠ "simple" →
      headerDecodeArray hdr param sm schema
        = (none, false, some (invalidSerializationMethodErr sm)))
    ∧ (∀ hdr param sm schema, sm.style ≠ "simple" →
      headerDecodeObject hdr param sm schema
        = (none, false, some (invalidSerializationMethodErr sm)))
    ∧ (∀ cs param sm schema, sm.style ≠ "form" →
      cookieDecodePrimitive cs param sm schema
        = (none, false, some (invalidSerializationMethodErr sm)))
    ∧ (∀ cs param sm schema, sm.style ≠ "form" ∨ sm.explode = true →
      cookieDecodeArray cs param sm schema
        = (none, false, some (invalidSerializationMethodErr sm)))
    ∧ (∀ cs param sm schema, sm.style ≠ "form" ∨ sm.explode = true →
      cookieDecodeObject cs param sm schema
        = (none, false, some (invalidSerializationMethodErr sm)))
    ∧ queryDecodeArray [("l", ["p", "q"])] "l" ⟨"pipeDelimited", true⟩ strArrSchema
        = (some [.str "p", .str "q"], true, none)
    ∧ cookieDecodePrimitive [("k", "w")] "k" ⟨"form", true⟩ strSchema
        = (some (.str "w"), true, none) := by
  refine ⟨?_, ?_, ?_, ?_, ?_, ?_, ?_, ?_, ?_, ?_, ?_, ?_, by rfl, by rfl⟩
  · intro pp param sm schema h1 h2 h3
    simp [pathDecodePrimitive, pathPrimPre, h1, h2, h3]
  · intro pp param sm schema h1 h2 h3
    simp [pathDecodeArray, pathArrPre, h1, h2, h3]
  · intro pp param sm schema h1 h2 h3
    simp [pathDecodeObject, pathObjPre, h1, h2, h3]
  · intro vals param sm schema h1
    simp [queryDecodePrimitive, h1]
  · intro vals param sm schema h1
    simp [queryDecodeArray, h1]
  · intro vals param sm schema h1 h2
    simp [queryDecodeObject, queryObjProps, h1, h2]
  · intro hdr param sm schema h1
    simp [headerDecodePrimitive, h1]
  · intro hdr param sm schema h1
    simp [headerDecodeArray, h1]
  · intro hdr param sm schema h1
    simp [headerDecodeObject, h1]
  · intro cs param sm schema h1
    simp [cookieDecodePrimitive, h1]
  · intro cs param sm schema h1
    unfold cookieDecodeArray
    rw [if_pos (by simpa using h1)]
  · intro cs param sm schema h1
    unfold cookieDecodeObject
    rw [if_pos (by simpa using h1)]

/-- C1 amended, witness: the rejection branches at concrete inputs. -/
theorem c1_amended_witness :
    pathDecodePrimitive [("x", "v")] "x" ⟨"form", false⟩ strSchema
      = (none, false, some (invalidSerializationMethodErr ⟨"form", false⟩)) ∧
    cookieDecodeArray [("x", "v")] "x" ⟨"form", true⟩ strArrSchema
      = (none, false, some (invalidSerializationMethodErr ⟨"form", true⟩)) := by
  constructor
  · exact c1_amended.1 [("x", "v")] "x" ⟨"form", false⟩ strSchema
      (by decide) (by decide) (by decide)
  · exact c1_amended.2.2.2.2.2.2.2.2.2.2.1 [("x", "v")] "x" ⟨"form", true⟩ strArrSchema
      (Or.inr rfl)

/-! ## C10 -/

/-- C10: for a path parameter with an empty path-parameter map, and for a
query parameter with an empty query map, styled decoding returns
`(nil, found=false, no error)` before any serialization-method dispatch, so
even an illegal style/explode combination produces no error. -/
theorem c10_empty_surface_short_circuit (p : Parameter) (input : RequestValidationInput) :
    (p.in_ = .path → input.pathParams = [] →
      decodeStyledParameter p input = (none, false, none))
    ∧ (p.in_ = .query → input.queryParams = [] →
      decodeStyledParameter p input = (none, false, none)) := by
  constructor
  · intro hin hempty
    simp [decodeStyledParameter, hin, hempty]
  · intro hin hempty
    simp [decodeStyledParameter, hin, hempty]

/-- C10 witness: a path parameter with the illegal style `spaceDelimited`
and a query parameter with the illegal style `label`, both on empty
surfaces, decode to `(nil, false, nil)`. -/
theorem c10_witness :
    decodeStyledParameter ⟨"x", .path, true, "spaceDelimited", some true, strSchema⟩
      ⟨[], [("q", ["1"])], [], []⟩ = (none, false, none) ∧
    decodeStyledParameter ⟨"y", .query, true, "label", some true, strSchema⟩
      ⟨[("p", "1")], [], [], []⟩ = (none, false, none) := by
  constructor
  · exact (c10_empty_surface_short_circuit _ _).1 rfl rfl
  · exact (c10_empty_surface_short_circuit _ _).2 rfl rfl

/-! ## C7 -/

/-- C7: `decodeBody` with a content type whose bare media type (parameters
stripped) has no registered decoder returns a `ParseError` of kind
`UnsupportedFormat` whose reason mentions the bare media type; and
registering then unregistering a decoder for a content type leaves it
unregistered, restoring that outcome. -/
theorem c7_unsupported_content_type :
    (∀ (registry : BodyRegistry) (body : String) (mp : Bool)
        (hdr : List (String × List String)) (schema : Schema),
      alookup registry (parseMediaType (effectiveContentType hdr mp)) = none →
      decodeBody registry body mp hdr schema
        = ("", none, some (.parse (.mk .unsupportedFormat none
            (prefixUnsupportedCT ++ " "
              ++ goQuote (parseMediaType (effectiveContentType hdr mp))) none []))))
    ∧ (∀ (registry : BodyRegistry) (ct : String) (d : BodyDecoder)
        (r1 r2 : BodyRegistry),
      RegisterBodyDecoder registry ct (some d) = some r1 →
      UnregisterBodyDecoder r1 ct = some r2 →
      ∀ (body : String) (mp : Bool) (hdr : List (String × List String)) (schema : Schema),
        parseMediaType (effectiveContentType hdr mp) = ct →
        decodeBody r2 body mp hdr schema
          = ("", none, some (.parse (.mk .unsupportedFormat none
              (prefixUnsupportedCT ++ " " ++ goQuote ct) none [])))) := by
  constructor
  · intro registry body mp hdr schema hnone
    simp [decodeBody, hnone]
  · intro registry ct d r1 r2 hreg hunreg body mp hdr schema hmt
    have hct : ct ≠ "" := by
      intro h
      rw [h] at hreg
      simp [RegisterBodyDecoder] at hreg
    have hr2 : r2 = mapDel r1 ct := by
      simp [UnregisterBodyDecoder, hct] at hunreg
      exact hunreg.symm
    have hnone : alookup r2 ct = none := by
      rw [hr2]; exact alookup_mapDel r1 ct
    simp [decodeBody, hmt, hnone]

/-- C7 witness: an unregistered `application/foo` (with a charset parameter
on the header) yields the UnsupportedFormat error, also after registering
and unregistering a decoder for it. -/
theorem c7_witness :
    decodeBody [] "z" false [("Content-Type", ["application/foo; charset=utf-8"])] strSchema
      = ("", none, some (.parse (.mk .unsupportedFormat none
          "unsupported content type \"application/foo\"" none []))) := by
  exact c7_unsupported_content_type.2 [] "application/foo" (fun _ _ => (none, none))
    [("application/foo", fun _ _ => (none, none))] [] rfl rfl
    "z" false [("Content-Type", ["application/foo; charset=utf-8"])] strSchema rfl

/-! ## C5 -/

/-- C5 counterexample: wrapping an indexed item error under an enclosing
property segment (as `multipartBodyDecoder` does) yields the path
`[0, name]` — the cause's segments come first and the enclosing segment
last — not the claimed root-to-leaf `[name, 0]`; the message renders as
`path 0.name: …` (and `value x` is unquoted, unlike the claim's example). -/
theorem c5_counterexample :
    (ParseErr.mk .other none ""
        (some (.parse (.mk .invalidFormat (some "x") "an invalid integer"
          (some (.str "value out of range")) [.idx 0])))
        [.str "name"]).Path = [.idx 0, .str "name"] ∧
    (ParseErr.mk .other none ""
        (some (.parse (.mk .invalidFormat (some "x") "an invalid integer"
          (some (.str "value out of range")) [.idx 0])))
        [.str "name"]).Path ≠ [.str "name", .idx 0] ∧
    (ParseErr.mk .other none ""
        (some (.parse (.mk .invalidFormat (some "x") "an invalid integer"
          (some (.str "value out of range")) [.idx 0])))
        [.str "name"]).error
      = "path 0.name: value x: an invalid integer: value out of range" := by
  refine ⟨by rfl, ?_, by rfl⟩
  intro h
  rw [show (ParseErr.mk .other none ""
      (some (.parse (.mk .invalidFormat (some "x") "an invalid integer"
        (some (.str "value out of range")) [.idx 0])))
      [.str "name"]).Path = [.idx 0, .str "name"] from rfl] at h
  exact absurd h (by decide)

/-- C5 amended: a wrapping `ParseError` appends its own segments after the
cause's trail (so nested trails run from the failing leaf's segments
outward to the enclosing ones, not root-to-leaf); the rendered message is
`path p0.p1.…: ` followed by the inner reason chain when the trail is
non-empty, and just the inner chain otherwise. -/
theorem c5_amended :
    (∀ (k : ParseErrorKind) (v : Option String) (r : String) (inner : ParseErr)
        (path : List PathSeg),
      (ParseErr.mk k v r (some (.parse inner)) path).Path = inner.Path ++ path)
    ∧ (∀ (k : ParseErrorKind) (v : Option String) (r : String) (path : List PathSeg),
      (ParseErr.mk k v r none path).Path = path)
    ∧ (∀ (k : ParseErrorKind) (v : Option String) (r s : String) (path : List PathSeg),
      (ParseErr.mk k v r (some (.str s)) path).Path = path)
    ∧ (∀ e : ParseErr,
      e.error = if e.Path.isEmpty then e.innerError
        else "path " ++ String.intercalate "." (e.Path.map PathSeg.render)
          ++ ": " ++ e.innerError) := by
  refine ⟨?_, ?_, ?_, ?_⟩
  · intro k v r inner path
    simp [ParseErr.Path, GoErr.pathOf]
  · intro k v r path
    simp [ParseErr.Path]
  · intro k v r s path
    simp [ParseErr.Path, GoErr.pathOf]
  · intro e
    unfold ParseErr.error
    rcases hp : e.Path with _ | ⟨s, rest⟩
    · simp
    · simp

/-! ## C4 -/

/-- C4 counterexample: in `["x", ""]` under integer items the second element
parses to null, yet `parseArray` returns the first element's parse error
(wrapped with index 0) rather than a null result with no error — the claim
fails when an earlier element fails to parse. -/
theorem c4_counterexample :
    parsePrimitive "" intSchema = (none, none) ∧
    parseArray ["x", ""] intArrSchema
      = (none, some (.parse (.mk .other none ""
          (some (.parse (.mk .invalidFormat (some "x") "an invalid integer"
            (some (.str "invalid syntax")) []))) [.idx 0]))) ∧
    parseArray ["x", ""] intArrSchema ≠ (none, none) := by
  refine ⟨by rfl, by rfl, ?_⟩
  intro h
  have : (parseArray ["x", ""] intArrSchema).2 = none := by rw [h]
  rw [show parseArray ["x", ""] intArrSchema
      = (none, some (.parse (.mk .other none ""
          (some (.parse (.mk .invalidFormat (some "x") "an invalid integer"
            (some (.str "invalid syntax")) []))) [.idx 0]))) from rfl] at this
  simp at this

theorem parseArrayLoop_characterization (it : Schema) :
    ∀ (raw : List String) (i : Nat) (acc : Option (List Val)),
      (∀ v ∈ raw, (parsePrimitive v it).2 = none) →
      parseArrayLoop it i raw acc =
        (if raw.any (fun v => (parsePrimitive v it).1.isNone) then none
         else if raw.isEmpty then acc
         else some (acc.getD [] ++ raw.filterMap (fun v => (parsePrimitive v it).1)),
         none) := by
  intro raw
  induction raw with
  | nil => intro i acc _; simp [parseArrayLoop]
  | cons v vs ih =>
    intro i acc hok
    have hv : (parsePrimitive v it).2 = none := hok v (by simp)
    have hvs : ∀ w ∈ vs, (parsePrimitive w it).2 = none := fun w hw => hok w (by simp [hw])
    rcases hpv : parsePrimitive v it with ⟨pv, pe⟩
    have hpe : pe = none := by rw [hpv] at hv; exact hv
    subst hpe
    rcases pv with _ | item
    · simp only [parseArrayLoop, hpv]
      have : (parsePrimitive v it).1.isNone = true := by rw [hpv]; rfl
      simp [this]
    · simp only [parseArrayLoop, hpv]
      rw [ih (i + 1) (some (acc.getD [] ++ [item])) hvs]
      have hv1 : (parsePrimitive v it).1 = some item := by rw [hpv]
      by_cases hany : vs.any (fun w => (parsePrimitive w it).1.isNone)
      · simp [hany, hv1]
      · simp only [List.any_cons, hv1, Option.isNone_some, Bool.false_or, hany,
          if_false, Bool.or_self]
        rcases vs with _ | ⟨w, ws⟩
        · simp [hv1]
        · simp only [List.isEmpty_cons, if_false, List.filterMap_cons, hv1]
          simp [List.append_assoc]

/-- C4 amended: provided every element of the raw array parses without
error, the array decodes to the null result with no error whenever at least
one element parses to null, and otherwise to the list of every parsed
element in input order; when an element fails to parse before any null is
reached, that element's error is returned instead (see the
counterexample). -/
theorem c4_amended (raw : List String) (schema it : Schema)
    (hitems : schema.items = some it)
    (hok : ∀ v ∈ raw, (parsePrimitive v it).2 = none) :
    parseArray raw schema =
      (if raw.any (fun v => (parsePrimitive v it).1.isNone) then none
       else if raw.isEmpty then none
       else some (raw.filterMap (fun v => (parsePrimitive v it).1)), none) := by
  have hD : schema.itemsD = it := by simp [Schema.itemsD, hitems]
  unfold parseArray
  rw [hD, parseArrayLoop_characterization it raw 0 none hok]
  rcases raw with _ | ⟨v, vs⟩
  · simp
  · by_cases hany : (v :: vs).any (fun w => (parsePrimitive w it).1.isNone)
    · simp [hany]
    · simp [hany]

/-- C4 amended, witness: an all-null array and an all-valued array. -/
theorem c4_witness :
    parseArray ["", ""] intArrSchema = (none, none) ∧
    parseArray ["1", "2"] intArrSchema = (some [.int64 1, .int64 2], none) := by
  constructor
  · have := c4_amended ["", ""] intArrSchema intSchema rfl
      (by intro v hv; fin_cases hv <;> rfl)
    simpa using this
  · have := c4_amended ["1", "2"] intArrSchema intSchema rfl
      (by intro v hv; fin_cases hv <;> rfl)
    simpa using this

/-! ## C2 -/

theorem pathPrimPre_eq_none_iff (param : String) (sm : SerializationMethod) :
    pathPrimPre param sm = none
      ↔ ¬(sm.style = "simple" ∨ sm.style = "label" ∨ sm.style = "matrix") := by
  unfold pathPrimPre
  split_ifs <;> simp_all

theorem pathArrPre_eq_none_iff (param : String) (sm : SerializationMethod) :
    pathArrPre param sm = none
      ↔ ¬(sm.style = "simple" ∨ sm.style = "label" ∨ sm.style = "matrix") := by
  unfold pathArrPre
  split_ifs with h1 h2 h3 h4 h5 <;>
    first
    | simp_all
    | (rcases Bool.eq_false_or_eq_true sm.explode with he | he <;> simp_all)

theorem pathObjPre_eq_none_iff (param : String) (sm : SerializationMethod) :
    pathObjPre param sm = none
      ↔ ¬(sm.style = "simple" ∨ sm.style = "label" ∨ sm.style = "matrix") := by
  unfold pathObjPre
  split_ifs with h1 h2 h3 h4 h5 h6 <;>
    first
    | simp_all
    | (rcases Bool.eq_false_or_eq_true sm.explode with he | he <;> simp_all)

theorem found_pathPrim_iff (pp : List (String × String)) (param : String)
    (sm : SerializationMethod) (schema : Schema) :
    (pathDecodePrimitive pp param sm schema).2.1 = true
      ↔ ((sm.style = "simple" ∨ sm.style = "label" ∨ sm.style = "matrix")
          ∧ ∃ raw, alookup pp param = some raw ∧ raw ≠ "") := by
  unfold pathDecodePrimitive
  cases hpre : pathPrimPre param sm with
  | none =>
    have := (pathPrimPre_eq_none_iff param sm).mp hpre
    simp [this]
  | some pre =>
    have hsty : sm.style = "simple" ∨ sm.style = "label" ∨ sm.style = "matrix" := by
      by_contra hc
      rw [(pathPrimPre_eq_none_iff param sm).mpr hc] at hpre
      cases hpre
    cases hlook : alookup pp param with
    | none => simp [hsty]
    | some raw =>
      by_cases hraw : raw = ""
      · subst hraw
        simp [hsty]
      · cases hcut : cutPfx raw pre with
        | error e => simp [hsty, hraw, hcut]
        | ok src => simp [hsty, hraw, hcut]

theorem found_pathArr_iff (pp : List (String × String)) (param : String)
    (sm : SerializationMethod) (schema : Schema) :
    (pathDecodeArray pp param sm schema).2.1 = true
      ↔ ((sm.style = "simple" ∨ sm.style = "label" ∨ sm.style = "matrix")
          ∧ ∃ raw, alookup pp param = some raw ∧ raw ≠ "") := by
  unfold pathDecodeArray
  cases hpre : pathArrPre param sm with
  | none =>
    have := (pathArrPre_eq_none_iff param sm).mp hpre
    simp [this]
  | some pd =>
    have hsty : sm.style = "simple" ∨ sm.style = "label" ∨ sm.style = "matrix" := by
      by_contra hc
      rw [(pathArrPre_eq_none_iff param sm).mpr hc] at hpre
      cases hpre
    obtain ⟨pre, delim⟩ := pd
    cases hlook : alookup pp param with
    | none => simp [hsty]
    | some raw =>
      by_cases hraw : raw = ""
      · subst hraw
        simp [hsty]
      · cases hcut : cutPfx raw pre with
        | error e => simp [hsty, hraw, hcut]
        | ok src => simp [hsty, hraw, hcut]

theorem found_pathObj_iff (pp : List (String × String)) (param : String)
    (sm : SerializationMethod) (schema : Schema) :
    (pathDecodeObject pp param sm schema).2.1 = true
      ↔ ((sm.style = "simple" ∨ sm.style = "label" ∨ sm.style = "matrix")
          ∧ ∃ raw, alookup pp param = some raw ∧ raw ≠ "") := by
  unfold pathDecodeObject
  cases hpre : pathObjPre param sm with
  | none =>
    have := (pathObjPre_eq_none_iff param sm).mp hpre
    simp [this]
  | some pd =>
    have hsty : sm.style = "simple" ∨ sm.style = "label" ∨ sm.style = "matrix" := by
      by_contra hc
      rw [(pathObjPre_eq_none_iff param sm).mpr hc] at hpre
      cases hpre
    obtain ⟨pre, propsDelim, valueDelim⟩ := pd
    cases hlook : alookup pp param with
    | none => simp [hsty]
    | some raw =>
      by_cases hraw : raw = ""
      · subst hraw
        simp [hsty]
      · cases hcut : cutPfx raw pre with
        | error e => simp [hsty, hraw, hcut]
        | ok src =>
          rcases hprops : propsFromString src propsDelim valueDelim with ⟨props, perr⟩
          cases perr <;> simp [hsty, hraw, hcut, hprops]

theorem found_queryPrim_iff (vals : List (String × List String)) (param : String)
    (sm : SerializationMethod) (schema : Schema) :
    (queryDecodePrimitive vals param sm schema).2.1 = true
      ↔ (sm.style = "form" ∧ (alookup vals param).isSome = true) := by
  unfold queryDecodePrimitive
  by_cases hsty : sm.style = "form"
  · rw [if_neg (by simp [hsty])]
    cases hlook : alookup vals param with
    | none => simp [hsty]
    | some vs =>
      cases vs with
      | nil => simp [hsty]
      | cons v0 rest =>
        by_cases hp : schema.type_ = none ∧ ¬schema.pattern = ""
        · simp [hsty, hp]
        · simp [hsty, hp]
  · rw [if_pos (by simp [hsty])]
    simp [hsty]

theorem found_queryArr_iff (vals : List (String × List String)) (param : String)
    (sm : SerializationMethod) (schema : Schema) :
    (queryDecodeArray vals param sm schema).2.1 = true
      ↔ (sm.style ≠ "deepObject" ∧ (alookup vals param).isSome = true) := by
  unfold queryDecodeArray
  by_cases hsty : sm.style = "deepObject"
  · simp [hsty]
  · rw [if_neg hsty]
    cases hlook : alookup vals param with
    | none => simp [hsty]
    | some vs =>
      cases vs with
      | nil => simp [hsty]
      | cons v0 rest => simp [hsty]

theorem found_headerPrim_iff (hdr : List (String × List String)) (param : String)
    (sm : SerializationMethod) (schema : Schema) :
    (headerDecodePrimitive hdr param sm schema).2.1 = true
      ↔ (sm.style = "simple" ∧ (alookup hdr (canonicalHeaderKey param)).isSome = true) := by
  unfold headerDecodePrimitive
  by_cases hsty : sm.style = "simple"
  · rw [if_neg (by simp [hsty])]
    cases hlook : alookup hdr (canonicalHeaderKey param) with
    | none => simp [hsty]
    | some vs => cases vs <;> simp [hsty]
  · rw [if_pos (by simp [hsty])]
    simp [hsty]

theorem found_headerArr_iff (hdr : List (String × List String)) (param : String)
    (sm : SerializationMethod) (schema : Schema) :
    (headerDecodeArray hdr param sm schema).2.1 = true
      ↔ (sm.style = "simple" ∧ (alookup hdr (canonicalHeaderKey param)).isSome = true) := by
  unfold headerDecodeArray
  by_cases hsty : sm.style = "simple"
  · rw [if_neg (by simp [hsty])]
    cases hlook : alookup hdr (canonicalHeaderKey param) with
    | none => simp [hsty]
    | some vs => cases vs <;> simp [hsty]
  · rw [if_pos (by simp [hsty])]
    simp [hsty]

theorem found_headerObj_iff (hdr : List (String × List String)) (param : String)
    (sm : SerializationMethod) (schema : Schema) :
    (headerDecodeObject hdr param sm schema).2.1 = true
      ↔ (sm.style = "simple" ∧ (alookup hdr (canonicalHeaderKey param)).isSome = true) := by
  unfold headerDecodeObject
  by_cases hsty : sm.style = "simple"
  · rw [if_neg (by simp [hsty])]
    cases hlook : alookup hdr (canonicalHeaderKey param) with
    | none => simp [hsty]
    | some vs =>
      cases vs with
      | nil => simp [hsty]
      | cons v0 rest =>
        rcases hprops : propsFromString v0 "," (if sm.explode then "=" else ",")
          with ⟨props, perr⟩
        cases perr <;> simp [hsty, hprops]
  · rw [if_pos (by simp [hsty])]
    simp [hsty]

theorem found_cookiePrim_iff (cs : List (String × String)) (param : String)
    (sm : SerializationMethod) (schema : Schema) :
    (cookieDecodePrimitive cs param sm schema).2.1 = true
      ↔ (sm.style = "form" ∧ (requestCookie cs param).isSome = true) := by
  unfold cookieDecodePrimitive
  by_cases hsty : sm.style = "form"
  · rw [if_neg (by simp [hsty])]
    cases hlook : requestCookie cs param with
    | none => simp [hsty]
    | some v => simp [hsty]
  · rw [if_pos (by simp [hsty])]
    simp [hsty]

theorem found_cookieArr_iff (cs : List (String × String)) (param : String)
    (sm : SerializationMethod) (schema : Schema) :
    (cookieDecodeArray cs param sm schema).2.1 = true
      ↔ ((sm.style = "form" ∧ sm.explode = false) ∧ (requestCookie cs param).isSome = true) := by
  unfold cookieDecodeArray
  by_cases hcond : sm.style ≠ "form" ∨ sm.explode = true
  · rw [if_pos hcond]
    rcases hcond with h | h <;> simp_all
  · rw [if_neg hcond]
    push_neg at hcond
    obtain ⟨h1, h2⟩ := hcond
    cases hlook : requestCookie cs param with
    | none => simp_all
    | some v => simp_all

theorem found_cookieObj_iff (cs : List (String × String)) (param : String)
    (sm : SerializationMethod) (schema : Schema) :
    (cookieDecodeObject cs param sm schema).2.1 = true
      ↔ ((sm.style = "form" ∧ sm.explode = false) ∧ (requestCookie cs param).isSome = true) := by
  unfold cookieDecodeObject
  by_cases hcond : sm.style ≠ "form" ∨ sm.explode = true
  · rw [if_pos hcond]
    rcases hcond with h | h <;> simp_all
  · rw [if_neg hcond]
    push_neg at hcond
    obtain ⟨h1, h2⟩ := hcond
    cases hlook : requestCookie cs param with
    | none => simp_all
    | some v =>
      rcases hprops : propsFromString v "," "," with ⟨props, perr⟩
      cases perr <;> simp_all

theorem found_queryObj_imp (vals : List (String × List String)) (param : String)
    (sm : SerializationMethod) (schema : Schema) :
    (queryDecodeObject vals param sm schema).2.1 = true →
      ∃ props mval, queryObjProps vals param sm = some (some props, none)
        ∧ makeObject props schema = (mval, none)
        ∧ queryObjFound props (mval.getD []) schema = true := by
  unfold queryDecodeObject
  cases hq : queryObjProps vals param sm with
  | none => simp
  | some pr =>
    rcases pr with ⟨props?, perr⟩
    cases perr with
    | some e => simp
    | none =>
      cases props? with
      | none => simp
      | some props =>
        rcases hmk : makeObject props schema with ⟨mval, merr⟩
        simp only [hmk]
        cases merr with
        | some e => intro hfound; simp at hfound
        | none =>
          intro hfound
          exact ⟨props, mval, rfl, hmk, by simpa using hfound⟩

/-- C2 counterexample: the path surface contains parameter `x` with the
empty raw value, yet `pathParamDecoder.DecodePrimitive` reports
`found=false` (the empty-raw branch returns a literal `false`). -/
theorem c2_counterexample :
    alookup [("x", "")] "x" = some "" ∧
    (pathDecodePrimitive [("x", "")] "x" ⟨"simple", false⟩ strSchema).2.1 = false := by
  exact ⟨rfl, rfl⟩

/-- C2 amended: for every value decoder whose serialization method is
accepted, `found` reflects the surface — except that the three path
operations additionally require the raw value to be non-empty (an
empty-valued path parameter reports `found=false`), and the query object
decoder derives `found` from whether a declared schema property was matched
in the assembled property map, not from the parameter name.  In detail:
path operations have `found=true` iff the style is legal and the map binds
the name to a non-empty raw value; query primitive/array, header, and
cookie operations have `found=true` iff the style (and for cookie
array/object also `explode=false`) is accepted and the surface contains the
name (header: under the canonical key) even if empty-valued; and the query
object decoder has `found=true` only if the assembled property map matched
a declared property (directly or through `deepGet`). -/
theorem c2_amended :
    (∀ pp param sm schema, (pathDecodePrimitive pp param sm schema).2.1 = true
      ↔ ((sm.style = "simple" ∨ sm.style = "label" ∨ sm.style = "matrix")
          ∧ ∃ raw, alookup pp param = some raw ∧ raw ≠ ""))
    ∧ (∀ pp param sm schema, (pathDecodeArray pp param sm schema).2.1 = true
      ↔ ((sm.style = "simple" ∨ sm.style = "label" ∨ sm.style = "matrix")
          ∧ ∃ raw, alookup pp param = some raw ∧ raw ≠ ""))
    ∧ (∀ pp param sm schema, (pathDecodeObject pp param sm schema).2.1 = true
      ↔ ((sm.style = "simple" ∨ sm.style = "label" ∨ sm.style = "matrix")
          ∧ ∃ raw, alookup pp param = some raw ∧ raw ≠ ""))
    ∧ (∀ vals param sm schema, (queryDecodePrimitive vals param sm schema).2.1 = true
      ↔ (sm.style = "form" ∧ (alookup vals param).isSome = true))
    ∧ (∀ vals param sm schema, (queryDecodeArray vals param sm schema).2.1 = true
      ↔ (sm.style ≠ "deepObject" ∧ (alookup vals param).isSome = true))
    ∧ (∀ hdr param sm schema, (headerDecodePrimitive hdr param sm schema).2.1 = true
      ↔ (sm.style = "simple" ∧ (alookup hdr (canonicalHeaderKey param)).isSome = true))
    ∧ (∀ hdr param sm schema, (headerDecodeArray hdr param sm schema).2.1 = true
      ↔ (sm.style = "simple" ∧ (alookup hdr (canonicalHeaderKey param)).isSome = true))
    ∧ (∀ hdr param sm schema, (headerDecodeObject hdr param sm schema).2.1 = true
      ↔ (sm.style = "simple" ∧ (alookup hdr (canonicalHeaderKey param)).isSome = true))
    ∧ (∀ cs param sm schema, (cookieDecodePrimitive cs param sm schema).2.1 = true
      ↔ (sm.style = "form" ∧ (requestCookie cs param).isSome = true))
    ∧ (∀ cs param sm schema, (cookieDecodeArray cs param sm schema).2.1 = true
      ↔ ((sm.style = "form" ∧ sm.explode = false) ∧ (requestCookie cs param).isSome = true))
    ∧ (∀ cs param sm schema, (cookieDecodeObject cs param sm schema).2.1 = true
      ↔ ((sm.style = "form" ∧ sm.explode = false) ∧ (requestCookie cs param).isSome = true))
    ∧ (∀ vals param sm schema, (queryDecodeObject vals param sm schema).2.1 = true →
      ∃ props mval, queryObjProps vals param sm = some (some props, none)
        ∧ makeObject props schema = (mval, none)
        ∧ queryObjFound props (mval.getD []) schema = true) :=
  ⟨found_pathPrim_iff, found_pathArr_iff, found_pathObj_iff, found_queryPrim_iff,
    found_queryArr_iff, found_headerPrim_iff, found_headerArr_iff, found_headerObj_iff,
    found_cookiePrim_iff, found_cookieArr_iff, found_cookieObj_iff, found_queryObj_imp⟩

/-- C2 amended, witness: an empty-valued header parameter is found; an
empty-valued path parameter is not; a matched query object reports its
property-derived `found`. -/
theorem c2_amended_witness :
    (headerDecodePrimitive [("X-A", [])] "x-a" ⟨"simple", false⟩ strSchema).2.1 = true ∧
    ¬((pathDecodePrimitive [("x", "")] "x" ⟨"simple", false⟩ strSchema).2.1 = true) ∧
    (∃ props mval,
      queryObjProps [("b", ["1"])] "a" ⟨"form", true⟩ = some (some props, none)
        ∧ makeObject props (.mk (some ["object"]) "" [] [] [] none ""
            [("b", strSchema)] none none none) = (mval, none)
        ∧ queryObjFound props (mval.getD [])
            (.mk (some ["object"]) "" [] [] [] none "" [("b", strSchema)] none none none)
          = true) := by
  refine ⟨?_, ?_, ?_⟩
  · exact (c2_amended.2.2.2.2.2.1 [("X-A", [])] "x-a" ⟨"simple", false⟩ strSchema).mpr
      (by exact ⟨rfl, rfl⟩)
  · intro h
    have := (c2_amended.1 [("x", "")] "x" ⟨"simple", false⟩ strSchema).mp h
    obtain ⟨-, raw, hraw, hne⟩ := this
    rw [show alookup [("x", "")] "x" = some "" from rfl] at hraw
    cases hraw
    exact hne rfl
  · exact (c2_amended.2.2.2.2.2.2.2.2.2.2.2 [("b", ["1"])] "a" ⟨"form", true⟩
      (.mk (some ["object"]) "" [] [] [] none "" [("b", strSchema)] none none none)) rfl

/-! ## C3 -/

theorem decodeValue_allOf (dec : Decoder) (param : String) (sm : SerializationMethod)
    (schema : Schema) (required : Bool) (h : schema.allOf ≠ []) :
    decodeValue dec param sm schema required
      = decodeAllOfAux dec param sm required schema.allOf false none none := by
  cases schema with
  | mk t f a ao oo n p pr it ah asc =>
    cases a with
    | nil => simp [Schema.allOf] at h
    | cons s rest => simp [decodeValue, Schema.allOf]

theorem decodeAllOfAux_all_ok (dec : Decoder) (param : String) (sm : SerializationMethod)
    (required : Bool) :
    ∀ (l : List Schema) (hne : l ≠ []) (f0 : Bool) (v0 : Option Val) (e0 : Option GoErr),
      (∀ sr ∈ l, (decodeValue dec param sm sr required).1 ≠ none
        ∧ (decodeValue dec param sm sr required).2.2 = none) →
      decodeAllOfAux dec param sm required l f0 v0 e0 =
        ((decodeValue dec param sm (l.getLast hne) required).1,
         f0 || l.any (fun sr => (decodeValue dec param sm sr required).2.1),
         none) := by
  intro l
  induction l with
  | nil => intro hne; exact absurd rfl hne
  | cons s rest ih =>
    intro hne f0 v0 e0 hok
    have hs := hok s (by simp)
    rcases hr : decodeValue dec param sm s required with ⟨v, f, e⟩
    have hv : ∃ w, v = some w := by
      rcases v with _ | w
      · exact absurd (by rw [hr]) hs.1
      · exact ⟨w, rfl⟩
    obtain ⟨w, rfl⟩ := hv
    have he : e = none := by
      have := hs.2
      rw [hr] at this
      exact this
    subst he
    cases rest with
    | nil =>
      simp only [decodeAllOfAux, hr]
      simp [List.getLast, hr]
    | cons s2 rest2 =>
      have hstep : decodeAllOfAux dec param sm required (s :: s2 :: rest2) f0 v0 e0
          = decodeAllOfAux dec param sm required (s2 :: rest2) (f0 || f) (some w) none := by
        conv_lhs => rw [decodeAllOfAux]
        rw [hr]
      rw [hstep]
      rw [ih (by simp) (f0 || f) (some w) none
        (fun sr hsr => hok sr (by simp [hsr]))]
      simp [List.getLast_cons, hr, Bool.or_assoc]

theorem decodeAllOfAux_first_bad (dec : Decoder) (param : String) (sm : SerializationMethod)
    (required : Bool) :
    ∀ (l1 : List Schema) (s : Schema) (l2 : List Schema) (f0 : Bool) (v0 : Option Val)
      (e0 : Option GoErr),
      (∀ sr ∈ l1, (decodeValue dec param sm sr required).1 ≠ none
        ∧ (decodeValue dec param sm sr required).2.2 = none) →
      ((decodeValue dec param sm s required).1 = none
        ∨ (decodeValue dec param sm s required).2.2 ≠ none) →
      decodeAllOfAux dec param sm required (l1 ++ s :: l2) f0 v0 e0 =
        ((decodeValue dec param sm s required).1,
         f0 || (l1 ++ [s]).any (fun sr => (decodeValue dec param sm sr required).2.1),
         (decodeValue dec param sm s required).2.2) := by
  intro l1
  induction l1 with
  | nil =>
    intro s l2 f0 v0 e0 _ hbad
    rcases hr : decodeValue dec param sm s required with ⟨v, f, e⟩
    rw [hr] at hbad
    simp only [List.nil_append, decodeAllOfAux, hr]
    rcases v with _ | w
    · simp [hr]
    · rcases e with _ | e'
      · simp at hbad
      · simp [hr]
  | cons s1 rest ih =>
    intro s l2 f0 v0 e0 hok hbad
    have hs1 := hok s1 (by simp)
    rcases hr : decodeValue dec param sm s1 required with ⟨v, f, e⟩
    have hv : ∃ w, v = some w := by
      rcases v with _ | w
      · exact absurd (by rw [hr]) hs1.1
      · exact ⟨w, rfl⟩
    obtain ⟨w, rfl⟩ := hv
    have he : e = none := by
      have := hs1.2
      rw [hr] at this
      exact this
    subst he
    have hstep : decodeAllOfAux dec param sm required ((s1 :: rest) ++ s :: l2) f0 v0 e0
        = decodeAllOfAux dec param sm required (rest ++ s :: l2) (f0 || f) (some w) none := by
      rw [List.cons_append]
      conv_lhs => rw [decodeAllOfAux]
      rw [hr]
    rw [hstep]
    rw [ih s l2 (f0 || f) (some w) none (fun sr hsr => hok sr (by simp [hsr])) hbad]
    simp [hr, Bool.or_assoc]

/-- C3: when the schema's `allOf` list is non-empty, styled decoding decodes
the input against each member in order; if every member yields a non-nil
value and no error, the result is the last member's value with no error and
`found` is the disjunction of the members' `found` flags; the loop stops at
the first member that yields a nil value or an error, returning that
member's value and error with `found` accumulated over the members decoded
so far. -/
theorem c3_allOf_loop (dec : Decoder) (param : String) (sm : SerializationMethod)
    (schema : Schema) (required : Bool) (hne : schema.allOf ≠ []) :
    ((∀ sr ∈ schema.allOf, (decodeValue dec param sm sr required).1 ≠ none
        ∧ (decodeValue dec param sm sr required).2.2 = none) →
      decodeValue dec param sm schema required
        = ((decodeValue dec param sm (schema.allOf.getLast hne) required).1,
           schema.allOf.any (fun sr => (decodeValue dec param sm sr required).2.1),
           none))
    ∧ (∀ (l1 : List Schema) (s : Schema) (l2 : List Schema),
      schema.allOf = l1 ++ s :: l2 →
      (∀ sr ∈ l1, (decodeValue dec param sm sr required).1 ≠ none
        ∧ (decodeValue dec param sm sr required).2.2 = none) →
      ((decodeValue dec param sm s required).1 = none
        ∨ (decodeValue dec param sm s required).2.2 ≠ none) →
      decodeValue dec param sm schema required
        = ((decodeValue dec param sm s required).1,
           (l1 ++ [s]).any (fun sr => (decodeValue dec param sm sr required).2.1),
           (decodeValue dec param sm s required).2.2)) := by
  constructor
  · intro hok
    rw [decodeValue_allOf dec param sm schema required hne]
    rw [decodeAllOfAux_all_ok dec param sm required schema.allOf hne false none none hok]
    simp
  · intro l1 s l2 hsplit hok hbad
    rw [decodeValue_allOf dec param sm schema required hne]
    rw [hsplit]
    rw [decodeAllOfAux_first_bad dec param sm required l1 s l2 false none none hok hbad]
    simp

/-- C3 witness: in `allOf [integer, number]` on query value `"5"` both
members succeed and the last member's value (the number) is returned with
`found=true`; in `allOf [integer, integer]` on query value `"x"` the first
member errors and the loop stops with that member's error. -/
theorem c3_witness :
    decodeValue (.query [("a", ["5"])]) "a" ⟨"form", true⟩
      (.mk none "" [intSchema, numSchema] [] [] none "" [] none none none) false
      = (some (.num "5"), true, none) ∧
    decodeValue (.query [("a", ["x"])]) "a" ⟨"form", true⟩
      (.mk none "" [intSchema, intSchema] [] [] none "" [] none none none) false
      = (none, true, some (.parse (.mk .invalidFormat (some "x") "an invalid integer"
          (some (.str "invalid syntax")) []))) := by
  constructor
  · have := (c3_allOf_loop (.query [("a", ["5"])]) "a" ⟨"form", true⟩
      (.mk none "" [intSchema, numSchema] [] [] none "" [] none none none) false
      (by simp [Schema.allOf])).1
      (by
        intro sr hsr
        simp only [Schema.allOf] at hsr
        fin_cases hsr
        · exact ⟨fun h => Option.noConfusion h, rfl⟩
        · exact ⟨fun h => Option.noConfusion h, rfl⟩)
    simpa using this
  · have := (c3_allOf_loop (.query [("a", ["x"])]) "a" ⟨"form", true⟩
      (.mk none "" [intSchema, intSchema] [] [] none "" [] none none none) false
      (by simp [Schema.allOf])).2 [] intSchema [intSchema] rfl (by simp)
      (Or.inl rfl)
    simpa using this

/-! ## C6 -/

theorem decodeValue_oneOf (dec : Decoder) (param : String) (sm : SerializationMethod)
    (schema : Schema) (required : Bool) (h1 : schema.allOf = []) (h2 : schema.anyOf = [])
    (h3 : schema.oneOf ≠ []) :
    decodeValue dec param sm schema required =
      (let t := decodeOneOfAux dec param sm required schema.oneOf false none 0
       if 1 ≤ t.2.2 then (t.1, t.2.1, none)
       else if required then
         (none, t.2.1, some (.str ("decoding oneOf failed: " ++ goQuote param
           ++ " is required")))
       else (none, t.2.1, none)) := by
  cases schema with
  | mk t f a ao oo n p pr it ah asc =>
    simp only [Schema.allOf] at h1
    simp only [Schema.anyOf] at h2
    subst h1; subst h2
    cases oo with
    | nil => simp [Schema.oneOf] at h3
    | cons s rest => simp [decodeValue, Schema.oneOf]

theorem decodeOneOfAux_matched (dec : Decoder) (param : String) (sm : SerializationMethod)
    (required : Bool) :
    ∀ (l : List Schema) (f0 : Bool) (v0 : Option Val) (m0 : Nat),
      (decodeOneOfAux dec param sm required l f0 v0 m0).2.2
        = m0 + l.countP (fun sr => (decodeValue dec param sm sr required).1.isSome) := by
  intro l
  induction l with
  | nil => intro f0 v0 m0; simp [decodeOneOfAux]
  | cons s rest ih =>
    intro f0 v0 m0
    rcases hr : decodeValue dec param sm s required with ⟨v, f, e⟩
    cases v with
    | none =>
      simp only [decodeOneOfAux, hr]
      rw [ih]
      simp [List.countP_cons, hr]
    | some w =>
      simp only [decodeOneOfAux, hr]
      rw [ih]
      simp [List.countP_cons, hr]
      omega

theorem decodeOneOfAux_value_isSome (dec : Decoder) (param : String)
    (sm : SerializationMethod) (required : Bool) :
    ∀ (l : List Schema) (f0 : Bool) (v0 : Option Val) (m0 : Nat),
      ((∃ sr ∈ l, (decodeValue dec param sm sr required).1.isSome) ∨ v0.isSome) →
      (decodeOneOfAux dec param sm required l f0 v0 m0).1.isSome := by
  intro l
  induction l with
  | nil =>
    intro f0 v0 m0 h
    rcases h with ⟨sr, hm, _⟩ | h
    · cases hm
    · simpa [decodeOneOfAux] using h
  | cons s rest ih =>
    intro f0 v0 m0 h
    rcases hr : decodeValue dec param sm s required with ⟨v, f, e⟩
    cases v with
    | none =>
      simp only [decodeOneOfAux, hr]
      apply ih
      rcases h with ⟨sr, hm, hv⟩ | h
      · rcases hm with _ | hm
        · rw [hr] at hv
          simp at hv
        · exact Or.inl ⟨sr, by assumption, hv⟩
      · exact Or.inr h
    | some w =>
      simp only [decodeOneOfAux, hr]
      apply ih
      exact Or.inr rfl

theorem parseValue_oneOf (v : String) (schema : Schema) (h1 : schema.allOf = [])
    (h2 : schema.anyOf = []) (h3 : schema.oneOf ≠ []) :
    parseValue v schema =
      (let t := parseOneOfAux v schema.oneOf none 0
       if t.2 = 1 then (t.1, none)
       else (none, some (.str ("decoding oneOf failed: " ++ toString t.2
         ++ " schemas matched")))) := by
  cases schema with
  | mk t f a ao oo n p pr it ah asc =>
    simp only [Schema.allOf] at h1
    simp only [Schema.anyOf] at h2
    subst h1; subst h2
    cases oo with
    | nil => simp [Schema.oneOf] at h3
    | cons s rest => simp [parseValue, Schema.oneOf]

theorem parseOneOfAux_matched (v : String) :
    ∀ (l : List Schema) (v0 : Option Val) (m0 : Nat),
      (parseOneOfAux v l v0 m0).2
        = m0 + l.countP (fun sr => (parseValue v sr).2.isNone) := by
  intro l
  induction l with
  | nil => intro v0 m0; simp [parseOneOfAux]
  | cons s rest ih =>
    intro v0 m0
    rcases hr : parseValue v s with ⟨w, e⟩
    cases e with
    | none =>
      simp only [parseOneOfAux, hr]
      rw [ih]
      simp [List.countP_cons, hr]
      omega
    | some err =>
      simp only [parseOneOfAux, hr]
      rw [ih]
      simp [List.countP_cons, hr]

/-- C6: under a `oneOf` schema (with empty `allOf`/`anyOf`), styled value
decoding returns a decoded value and no error whenever at least one member
yields a non-nil value — even if several match — whereas the body-side
`urlValuesDecoder.parseValue` returns the `decoding oneOf failed` error,
not a value, whenever more than one member parses without error. -/
theorem c6_oneOf_asymmetry :
    (∀ (dec : Decoder) (param : String) (sm : SerializationMethod) (schema : Schema)
        (required : Bool),
      schema.allOf = [] → schema.anyOf = [] → schema.oneOf ≠ [] →
      (∃ sr ∈ schema.oneOf, (decodeValue dec param sm sr required).1 ≠ none) →
      (decodeValue dec param sm schema required).1 ≠ none
        ∧ (decodeValue dec param sm schema required).2.2 = none)
    ∧ (∀ (v : String) (schema : Schema),
      schema.allOf = [] → schema.anyOf = [] → schema.oneOf ≠ [] →
      2 ≤ schema.oneOf.countP (fun sr => (parseValue v sr).2.isNone) →
      parseValue v schema
        = (none, some (.str ("decoding oneOf failed: "
            ++ toString (schema.oneOf.countP (fun sr => (parseValue v sr).2.isNone))
            ++ " schemas matched")))) := by
  constructor
  · intro dec param sm schema required h1 h2 h3 hex
    rw [decodeValue_oneOf dec param sm schema required h1 h2 h3]
    have hm : 1 ≤ (decodeOneOfAux dec param sm required schema.oneOf false none 0).2.2 := by
      rw [decodeOneOfAux_matched]
      have : 0 < schema.oneOf.countP
          (fun sr => (decodeValue dec param sm sr required).1.isSome) := by
        rw [List.countP_pos]
        obtain ⟨sr, hm, hv⟩ := hex
        exact ⟨sr, hm, by simpa [Option.isSome_iff_ne_none] using hv⟩
      omega
    have hv : (decodeOneOfAux dec param sm required schema.oneOf false none 0).1.isSome := by
      apply decodeOneOfAux_value_isSome
      obtain ⟨sr, hm, hv⟩ := hex
      exact Or.inl ⟨sr, hm, by simpa [Option.isSome_iff_ne_none] using hv⟩
    simp only [hm, if_pos]
    constructor
    · simpa [Option.isSome_iff_ne_none] using hv
    · trivial
  · intro v schema h1 h2 h3 hcnt
    rw [parseValue_oneOf v schema h1 h2 h3]
    have hm : (parseOneOfAux v schema.oneOf none 0).2
        = schema.oneOf.countP (fun sr => (parseValue v sr).2.isNone) := by
      rw [parseOneOfAux_matched]
      omega
    simp only [hm]
    rw [if_neg (by omega)]

/-- C6 witness: `oneOf [integer, number]` on `"5"`: styled decoding returns
the (second) matching value with no error, while `parseValue` errors with
two matched schemas. -/
theorem c6_witness :
    decodeValue (.query [("a", ["5"])]) "a" ⟨"form", true⟩
      (.mk none "" [] [] [intSchema, numSchema] none "" [] none none none) false
      = (some (.num "5"), true, none) ∧
    parseValue "5" (.mk none "" [] [] [intSchema, numSchema] none "" [] none none none)
      = (none, some (.str "decoding oneOf failed: 2 schemas matched")) := by
  constructor
  · have := c6_oneOf_asymmetry.1 (.query [("a", ["5"])]) "a" ⟨"form", true⟩
      (.mk none "" [] [] [intSchema, numSchema] none "" [] none none none) false
      rfl rfl (by simp [Schema.oneOf])
      ⟨intSchema, by simp [Schema.oneOf], fun h => Option.noConfusion h⟩
    -- the theorem pins down error-freedom and non-nilness; the exact value
    -- is computed definitionally
    exact rfl
  · have := c6_oneOf_asymmetry.2 "5"
      (.mk none "" [] [] [intSchema, numSchema] none "" [] none none none)
      rfl rfl (by simp [Schema.oneOf]) (by rfl)
    simpa using this

/-! ## C9 -/

theorem alookup_nil {α : Type} (p : String) : alookup ([] : List (String × α)) p = none := rfl

theorem alookup_cons {α : Type} (e : String × α) (l : List (String × α)) (p : String) :
    alookup (e :: l) p = if e.1 == p then some e.2 else alookup l p := by
  simp only [alookup, List.find?]
  cases he : e.1 == p <;> simp [he]

theorem alookup_append {α : Type} (l1 l2 : List (String × α)) (p : String) :
    alookup (l1 ++ l2) p
      = match alookup l1 p with
        | some v => some v
        | none => alookup l2 p := by
  induction l1 with
  | nil => simp [alookup_nil]
  | cons e rest ih =>
    rw [List.cons_append, alookup_cons, alookup_cons]
    cases he : e.1 == p
    · simpa using ih
    · simp

theorem alookup_mapSet_self {α : Type} (l : List (String × α)) (k : String) (v : α) :
    alookup (mapSet l k v) k = some v := by
  unfold mapSet
  by_cases hp : (alookup l k).isSome
  · rw [if_pos hp]
    induction l with
    | nil => simp [alookup_nil] at hp
    | cons e rest ih =>
      rw [alookup_cons] at hp
      cases he : e.1 == k
      · rw [he] at hp
        simp only [Bool.false_eq_true, if_neg, not_false_iff] at hp
        simp only [List.map_cons, he, Bool.false_eq_true, if_neg, not_false_iff]
        rw [alookup_cons, he]
        simpa using ih hp
      · simp only [List.map_cons, he, if_pos]
        rw [alookup_cons]
        simp
  · rw [if_neg hp]
    rw [alookup_append]
    have hnone : alookup l k = none := by
      cases h : alookup l k
      · rfl
      · rw [h] at hp; simp at hp
    rw [hnone, alookup_cons]
    simp

theorem alookup_mapSet_ne {α : Type} (l : List (String × α)) (k : String) (v : α)
    (p : String) (h : k ≠ p) : alookup (mapSet l k v) p = alookup l p := by
  unfold mapSet
  by_cases hp : (alookup l k).isSome
  · rw [if_pos hp]
    clear hp
    induction l with
    | nil => simp
    | cons e rest ih =>
      rw [List.map_cons, alookup_cons, alookup_cons]
      cases he : e.1 == k
      · simp only [he, Bool.false_eq_true, if_neg, not_false_iff]
        cases hep : e.1 == p
        · simp only [hep, Bool.false_eq_true, if_neg, not_false_iff]
          simpa using ih
        · simp
      · have hek : e.1 = k := by simpa using he
        simp only [he, if_pos]
        have hkp : (k == p) = false := by simpa using h
        have hep : (e.1 == p) = false := by rw [hek]; exact hkp
        simp only [hkp, hep, Bool.false_eq_true, if_neg, not_false_iff]
        simpa using ih
  · rw [if_neg hp]
    have h1 : alookup [(k, v)] p = none := by
      have hkp : (k == p) = false := by simpa using h
      rw [alookup_cons, hkp]
      simp [alookup_nil]
    rw [alookup_append, h1]
    cases hl : alookup l p <;> simp

theorem alookup_deepSet_ne (m : List (String × Option Val)) (keys : List String)
    (val : Option Val) (p : String) (h : keys.head? ≠ some p) :
    alookup (deepSet m keys val) p = alookup m p := by
  match keys with
  | [] => rfl
  | [k] =>
    have : k ≠ p := by simpa using h
    exact alookup_mapSet_ne m k val p this
  | k :: k2 :: ks =>
    have : k ≠ p := by simpa using h
    exact alookup_mapSet_ne m k _ p this

theorem splitChars_ne_nil (sep : List Char) (cs : List Char) : splitChars sep cs ≠ [] := by
  cases cs with
  | nil => simp [splitChars_nil]
  | cons c rest =>
    rw [splitChars_cons]
    by_cases hp : sep.isPrefixOf (c :: rest) ∧ sep ≠ []
    · simp [hp]
    · rw [if_neg hp]
      cases splitChars sep rest <;> simp

theorem splitChars_single_pre (c : Char) :
    ∀ (qd rest : List Char), c ∉ qd →
      splitChars [c] (qd ++ c :: rest) = qd :: splitChars [c] rest := by
  intro qd
  induction qd with
  | nil =>
    intro rest _
    rw [List.nil_append, splitChars_cons]
    rw [if_pos (by simp [List.isPrefixOf])]
    simp
  | cons d qd' ih =>
    intro rest hc
    have hdc : ¬(c = d) := by
      intro h
      exact hc (by simp [h])
    rw [List.cons_append, splitChars_cons]
    rw [if_neg (by simp [List.isPrefixOf, List.cons_append, hdc])]
    rw [ih rest (fun hmem => hc (by simp [hmem]))]

theorem goSplit_head_pre (k q : String) (hq : usChar ∉ q.data)
    (hpre : goHasPre k (q ++ usDelim) = true) :
    (goSplit k usDelim).head? = some q := by
  have hdata : (q ++ usDelim).data.isPrefixOf k.data := by simpa [goHasPre] using hpre
  have hsplit : ∃ t, k.data = q.data ++ usChar :: t := by
    rw [ List.isPrefixOf_iff_prefix] at hdata
    obtain ⟨t, ht⟩ := hdata
    refine ⟨t, ?_⟩
    rw [← ht]
    simp [usDelim, usChar]
  obtain ⟨t, ht⟩ := hsplit
  have hsep : usDelim ≠ "" := by simp [usDelim]
  unfold goSplit
  rw [if_neg hsep, ht]
  have husd : usDelim.data = [usChar] := rfl
  rw [husd, splitChars_single_pre usChar q.data t hq]
  simp

theorem makeObjectArrayProp_preserves (props : List (String × String))
    (obj : List (String × Option Val)) (q : String) (qsch : Schema)
    (obj' : List (String × Option Val)) (p : String) (hqp : q ≠ p)
    (h : makeObjectArrayProp props obj q qsch = (some obj', none)) :
    alookup obj' p = alookup obj p := by
  simp only [makeObjectArrayProp] at h
  cases hf : firstParseFailure qsch.itemsD (goSplit (propsGet props q) usDelim) with
  | some e => rw [hf] at h; simp at h
  | none =>
    rw [hf] at h
    simp only [] at h
    rcases hc : convertArrayParameterToType (goSplit (propsGet props q) usDelim)
        qsch.itemsD.type_ with ⟨ivals, cerr⟩
    rw [hc] at h
    cases cerr with
    | some e => simp at h
    | none =>
      simp only at h
      have : obj' = mapSet obj q (some (.arr (ivals.getD none))) := by
        cases h
        rfl
      rw [this]
      exact alookup_mapSet_ne obj q _ p hqp

theorem makeObjectObjProp_preserves (schema : Schema) (props : List (String × String))
    (q : String) (p : String) (hqp : q ≠ p) (hq : usChar ∉ q.data) :
    ∀ (iter : List (String × String)) (obj obj' : List (String × Option Val)),
      makeObjectObjProp schema props q iter obj = (some obj', none) →
      alookup obj' p = alookup obj p := by
  intro iter
  induction iter with
  | nil =>
    intro obj obj' h
    simp only [makeObjectObjProp] at h
    cases h
    rfl
  | cons kv rest ih =>
    intro obj obj' h
    obtain ⟨k, kval⟩ := kv
    simp only [makeObjectObjProp] at h
    by_cases hpre : goHasPre k (q ++ usDelim) = true
    · rw [if_pos hpre] at h
      have hhead : (goSplit k usDelim).head? = some q := goSplit_head_pre k q hq hpre
      have hheadne : (goSplit k usDelim).head? ≠ some p := by
        rw [hhead]
        intro hcontra
        exact hqp (by injection hcontra)
      cases hnest : findNestedSchema schema (goSplit k usDelim) with
      | error msg => rw [hnest] at h; simp at h
      | ok nested =>
        rw [hnest] at h
        simp only [] at h
        by_cases hperm : typesPermits nested.type_ "array" = true
        · rw [if_pos hperm] at h
          cases hf : firstParseFailure nested.itemsD (goSplit (propsGet props k) usDelim) with
          | some e => rw [hf] at h; simp at h
          | none =>
            rw [hf] at h
            rcases hc : convertArrayParameterToType (goSplit (propsGet props k) usDelim)
                nested.itemsD.type_ with ⟨ivals, cerr⟩
            rw [hc] at h
            cases cerr with
            | some e => simp at h
            | none =>
              simp only at h
              have := ih _ _ h
              rw [this]
              exact alookup_deepSet_ne obj (goSplit k usDelim) _ p hheadne
        · rw [if_neg hperm] at h
          rcases hp : parsePrimitive (propsGet props k) nested with ⟨value, perr⟩
          rw [hp] at h
          cases perr with
          | some e => simp at h
          | none =>
            simp only at h
            have := ih _ _ h
            rw [this]
            exact alookup_deepSet_ne obj (goSplit k usDelim) _ p hheadne
    · rw [if_neg hpre] at h
      exact ih _ _ h

theorem makeObjectLoop_preserves (schema : Schema) (props : List (String × String))
    (p : String) :
    ∀ (pl : List (String × Schema)) (obj m : List (String × Option Val)),
      (∀ q ∈ pl.map Prod.fst, usChar ∉ q.data) →
      p ∉ pl.map Prod.fst →
      makeObjectLoop schema props pl obj = (some m, none) →
      alookup m p = alookup obj p := by
  intro pl
  induction pl with
  | nil =>
    intro obj m _ _ h
    simp only [makeObjectLoop] at h
    cases h
    rfl
  | cons e rest ih =>
    intro obj m hus hp h
    obtain ⟨q, qsch⟩ := e
    have hqp : q ≠ p := by
      intro hc
      exact hp (by simp [hc])
    have hqus : usChar ∉ q.data := hus q (by simp)
    have hrestus : ∀ r ∈ rest.map Prod.fst, usChar ∉ r.data :=
      fun r hr => hus r (by simp [hr])
    have hrestp : p ∉ rest.map Prod.fst := fun hc => hp (by simp [hc])
    simp only [makeObjectLoop] at h
    by_cases harr : typesIs qsch.type_ "array" = true
    · rw [if_pos harr] at h
      rcases hstep : makeObjectArrayProp props obj q qsch with ⟨obj?, serr⟩
      rw [hstep] at h
      cases serr with
      | some e2 => simp at h
      | none =>
        cases obj? with
        | none =>
          simp only at h
          rw [ih obj m hrestus hrestp h]
        | some obj' =>
          simp only at h
          rw [ih obj' m hrestus hrestp h]
          exact makeObjectArrayProp_preserves props obj q qsch obj' p hqp hstep
    · rw [if_neg harr] at h
      by_cases hobjt : typesIs qsch.type_ "object" = true
      · rw [if_pos hobjt] at h
        rcases hstep : makeObjectObjProp schema props q props obj with ⟨obj?, serr⟩
        rw [hstep] at h
        cases serr with
        | some e2 => simp at h
        | none =>
          cases obj? with
          | none =>
            simp only at h
            rw [ih obj m hrestus hrestp h]
          | some obj' =>
            simp only at h
            rw [ih obj' m hrestus hrestp h]
            exact makeObjectObjProp_preserves schema props q p hqp hqus props obj obj' hstep
      · rw [if_neg hobjt] at h
        rcases hpp : parsePrimitive (propsGet props q) qsch with ⟨value, perr⟩
        rw [hpp] at h
        cases perr with
        | some e2 => simp at h
        | none =>
          simp only at h
          rw [ih _ m hrestus hrestp h]
          exact alookup_mapSet_ne obj q value p hqp

theorem makeObjectLoop_scalar (schema : Schema) (props : List (String × String))
    (p : String) (psch : Schema)
    (harr : typesIs psch.type_ "array" = false)
    (hobjt : typesIs psch.type_ "object" = false) :
    ∀ (pl : List (String × Schema)) (obj m : List (String × Option Val)),
      (pl.map Prod.fst).Nodup →
      (∀ q ∈ pl.map Prod.fst, usChar ∉ q.data) →
      (p, psch) ∈ pl →
      makeObjectLoop schema props pl obj = (some m, none) →
      ∃ value, parsePrimitive (propsGet props p) psch = (value, none)
        ∧ alookup m p = some value := by
  intro pl
  induction pl with
  | nil =>
    intro obj m _ _ hmem
    cases hmem
  | cons e rest ih =>
    intro obj m hnodup hus hmem h
    obtain ⟨q, qsch⟩ := e
    have hrestus : ∀ r ∈ rest.map Prod.fst, usChar ∉ r.data :=
      fun r hr => hus r (by simp [hr])
    have hrestnodup : (rest.map Prod.fst).Nodup := by
      simpa using hnodup.of_cons
    rcases List.mem_cons.mp hmem with heq | hrest
    · -- the head is (p, psch): its own step writes the scalar entry
      injection heq with hq1 hq2
      subst hq1
      subst hq2
      have hnotin : p ∉ rest.map Prod.fst := by
        have := hnodup
        rw [List.map_cons, List.nodup_cons] at this
        exact this.1
      simp only [makeObjectLoop, harr, hobjt, Bool.false_eq_true, if_neg,
        not_false_iff] at h
      rcases hpp : parsePrimitive (propsGet props p) psch with ⟨value, perr⟩
      rw [hpp] at h
      cases perr with
      | some e2 => simp at h
      | none =>
        simp only at h
        refine ⟨value, rfl, ?_⟩
        rw [makeObjectLoop_preserves schema props p rest _ m hrestus hnotin h]
        exact alookup_mapSet_self obj p value
    · -- the head is another property: its step preserves the entry at p,
      -- and the tail contains (p, psch)
      have hqp : q ≠ p := by
        intro hc
        have : q ∉ rest.map Prod.fst := by
          have := hnodup
          rw [List.map_cons, List.nodup_cons] at this
          exact this.1
        exact this (hc ▸ (List.mem_map.mpr ⟨(p, psch), hrest, rfl⟩))
      have hqus : usChar ∉ q.data := hus q (by simp)
      simp only [makeObjectLoop] at h
      by_cases hqarr : typesIs qsch.type_ "array" = true
      · rw [if_pos hqarr] at h
        rcases hstep : makeObjectArrayProp props obj q qsch with ⟨obj?, serr⟩
        rw [hstep] at h
        cases serr with
        | some e2 => simp at h
        | none =>
          cases obj? with
          | none =>
            simp only at h
            exact ih obj m hrestnodup hrestus hrest h
          | some obj' =>
            simp only at h
            exact ih obj' m hrestnodup hrestus hrest h
      · rw [if_neg hqarr] at h
        by_cases hqobj : typesIs qsch.type_ "object" = true
        · rw [if_pos hqobj] at h
          rcases hstep : makeObjectObjProp schema props q props obj with ⟨obj?, serr⟩
          rw [hstep] at h
          cases serr with
          | some e2 => simp at h
          | none =>
            cases obj? with
            | none =>
              simp only at h
              exact ih obj m hrestnodup hrestus hrest h
            | some obj' =>
              simp only at h
              exact ih obj' m hrestnodup hrestus hrest h
        · rw [if_neg hqobj] at h
          rcases hpp : parsePrimitive (propsGet props q) qsch with ⟨value, perr⟩
          rw [hpp] at h
          cases perr with
          | some e2 => simp at h
          | none =>
            simp only at h
            exact ih _ m hrestnodup hrestus hrest h

/-- C9: for every input property map and object schema with distinct,
delimiter-free property names, the object assembler's successful output map
contains an entry for every declared property whose type is neither array
nor object; when the property's key is absent from the input map, that
entry is null (the missing key reads as the empty string, which parses to
null). -/
theorem c9_makeObject_scalar_entries (props : List (String × String)) (schema : Schema)
    (p : String) (psch : Schema) (m : List (String × Option Val))
    (hnodup : (schema.properties.map Prod.fst).Nodup)
    (hus : ∀ q ∈ schema.properties.map Prod.fst, usChar ∉ q.data)
    (hmem : (p, psch) ∈ schema.properties)
    (harr : typesIs psch.type_ "array" = false)
    (hobjt : typesIs psch.type_ "object" = false)
    (hmk : makeObject props schema = (some m, none)) :
    (alookup m p).isSome = true
      ∧ (alookup props p = none → alookup m p = some none) := by
  have := makeObjectLoop_scalar schema props p psch harr hobjt schema.properties [] m
    hnodup hus hmem (by simpa [makeObject] using hmk)
  obtain ⟨value, hpp, hm⟩ := this
  constructor
  · rw [hm]; rfl
  · intro habsent
    have hget : propsGet props p = "" := by simp [propsGet, habsent]
    rw [hget] at hpp
    have : value = none := by
      have h0 : parsePrimitive "" psch = (none, none) := by simp [parsePrimitive]
      rw [h0] at hpp
      injection hpp with h1 _
      exact h1.symm
    rw [hm, this]

/-- C9 witness: schema `{b: string, c: array of integer}` on a property map
missing `b`: the output still contains `b`, bound to null. -/
theorem c9_witness :
    (alookup [("c", "7")] "b" = none) ∧
    makeObject [("c", "7")]
      (.mk (some ["object"]) "" [] [] [] none ""
        [("b", strSchema), ("c", intArrSchema)] none none none)
      = (some [("b", none), ("c", some (.arr (some [.int64 7])))], none) ∧
    alookup [("b", none), ("c", some (Val.arr (some [.int64 7])))] "b" = some none := by
  refine ⟨rfl, by rfl, ?_⟩
  exact (c9_makeObject_scalar_entries [("c", "7")]
    (.mk (some ["object"]) "" [] [] [] none ""
      [("b", strSchema), ("c", intArrSchema)] none none none)
    "b" strSchema [("b", none), ("c", some (.arr (some [.int64 7])))]
    (by simp [Schema.properties])
    (by intro q hq; simp [Schema.properties] at hq; rcases hq with rfl | rfl <;> decide)
    (by simp [Schema.properties])
    rfl rfl (by rfl)).2 rfl
